import Mathlib

/-!
Shallow embedding of `brise_plandok/annotation/agreement.py`.

The Python module merges per-annotator spreadsheets into a per-sentence data
map, synthesizes quorum ("min1"/"min2"/"min3") annotators, and computes
pairwise Cohen-kappa agreement and gold-vs-annotator TP/FN/FP counts.

Modelling choices:
* Python dicts become association lists preserving insertion order;
  `collections.Counter` becomes an association list `List (Nat × Nat)`.
* Python exceptions become an explicit `Err` value.  Functions that mutate
  shared state return the state as of the moment the exception is raised
  (matching Python, where dict mutations persist across a raised exception).
* The external `cohen_kappa_score` (sklearn) is an opaque parameter `ext`;
  the external `Vocabulary` class (tuw_nlp) is modelled from the spec,
  section 4.1.
* Spreadsheet parsing (`xlsx_to_data`, `gen_sens_from_file`, filename
  parsing) is I/O glue per the spec; rows enter the model at the level of
  the dicts yielded by `gen_sens_from_file`.
-/

/-- Error values modelling the Python exceptions raised by `agreement.py`:
the two assertion failures in `load_data` (text mismatch carries the
sentence id from its message; the duplicate-annotation assert is bare),
`KeyError` on integer-keyed dict lookups, `KeyError` on vocabulary lookup
by word, the crafted `ValueError` naming a sentence and an annotator, and
`ZeroDivisionError`. -/
inductive Err where
  | textMismatch (senId : String)
  | dupAnnot
  | keyError (k : Nat)
  | keyErrorWord (w : String)
  | valueError (senId : String) (ann : Nat)
  | zeroDivision
  deriving DecidableEq

/-- Modelled from the spec: the external `tuw_nlp.common.vocabulary.Vocabulary`
class is not part of this repository.  Per spec section 4.1 it is a
bidirectional interner assigning sequential integer ids in encounter order;
we store the words in id order. -/
structure Vocabulary where
  words : List String
  deriving DecidableEq

/-- Index of the first occurrence of a word in a word list. -/
def findIdxA : List String → String → Option Nat
  | [], _ => none
  | x :: rest, w => if x = w then some 0 else (findIdxA rest w).map (· + 1)

/-- Modelled from the spec: `get_id(word, allow_new=False)` returns the
existing id of a known word, `none` (a `KeyError` in Python) otherwise. -/
def Vocabulary.get_id (v : Vocabulary) (w : String) : Option Nat :=
  findIdxA v.words w

/-- Modelled from the spec: `get_id(word, allow_new=True)` returns the
existing id of a known word and otherwise assigns the next sequential id,
recording both directions.  Returns the id and the updated vocabulary. -/
def Vocabulary.getIdNew (v : Vocabulary) (w : String) : Nat × Vocabulary :=
  match v.get_id w with
  | some i => (i, v)
  | none => (v.words.length, ⟨v.words ++ [w]⟩)

/-- Modelled from the spec: `get_word(id)` returns the word recorded for an
id, failing (`none`) on unknown ids. -/
def Vocabulary.get_word (v : Vocabulary) (i : Nat) : Option String :=
  v.words[i]?

/-- Lookup in an integer-keyed association list (Python `d[k]` / `k in d`). -/
def alistGet {β : Type} : List (Nat × β) → Nat → Option β
  | [], _ => none
  | p :: rest, k => if p.1 = k then some p.2 else alistGet rest k

/-- Write to an integer-keyed association list: Python dict assignment,
which updates an existing key in place and otherwise appends. -/
def alistSet {β : Type} : List (Nat × β) → Nat → β → List (Nat × β)
  | [], k, v => [(k, v)]
  | p :: rest, k, v => if p.1 = k then (k, v) :: rest else p :: alistSet rest k v

/-- Value of a `Counter` at a key (missing keys count as 0). -/
def counterGet (c : List (Nat × Nat)) (k : Nat) : Nat :=
  (alistGet c k).getD 0

/-- Increment of a `Counter` at a key (`c[k] += 1`). -/
def counterInc : List (Nat × Nat) → Nat → List (Nat × Nat)
  | [], k => [(k, 1)]
  | p :: rest, k =>
      if p.1 = k then (p.1, p.2 + 1) :: rest else p :: counterInc rest k

/-- The gold-only branch of `load_data`: `if attr not in stats: stats[attr] = 0`
creates a zero entry without incrementing existing ones. -/
def counterEnsure (c : List (Nat × Nat)) (k : Nat) : List (Nat × Nat) :=
  if (alistGet c k).isSome then c else c ++ [(k, 0)]

/-- Python `sorted` on a list of attribute ids. -/
def sortNat (l : List Nat) : List Nat :=
  List.insertionSort (· ≤ ·) l

/-- Python `set(...)` materialized as a list of the distinct elements in
first-occurrence order. -/
def distinctList (l : List String) : List String :=
  l.foldl (fun acc x => if x ∈ acc then acc else acc ++ [x]) []

/-- The `REPLACEMENT_PAIRS` normalization table of `agreement.py`. -/
def REPLACEMENT_PAIRS : List (String × String) :=
  [("BBDachneigungMax", "DachneigungMax")]

/-- The function `preprocess_attr`: return the right-hand side of the first
replacement pair whose left-hand side equals the attribute, else the
attribute itself. -/
def preprocess_attr (attr : String) : String :=
  match REPLACEMENT_PAIRS.find? (fun p => attr = p.1) with
  | some p => p.2
  | none => attr

/-- The attribute-interning comprehension of `load_data`:
`[attr_vocab.get_id(preprocess_attr(attr), allow_new=True) for attr in ...]`,
threading the growing attribute vocabulary. -/
def internAttrs (attrV : Vocabulary) (attrs : List String) : List Nat × Vocabulary :=
  attrs.foldl
    (fun st a =>
      let r := st.2.getIdNew (preprocess_attr a)
      (st.1 ++ [r.1], r.2))
    ([], attrV)

/-- One sentence dict as yielded by `gen_sens_from_file`: sentence id,
text, and the raw attribute labels of the row. -/
structure Row where
  id : String
  text : String
  attributes : List String
  deriving DecidableEq

/-- One record of the sentence map `data`: sentence id, text, the
annotator-id → attribute-id-list map `annot`, and the `attr_stats` counter. -/
structure SenRecord where
  id : String
  text : String
  annot : List (Nat × List Nat)
  attr_stats : List (Nat × Nat)
  deriving DecidableEq

/-- Lookup of a sentence record by id (Python `data[sen_id]` / `in data`). -/
def dataGet : List SenRecord → String → Option SenRecord
  | [], _ => none
  | rec :: rest, i => if rec.id = i then some rec else dataGet rest i

/-- In-place replacement of the record with a given id. -/
def dataSet : List SenRecord → String → SenRecord → List SenRecord
  | [], _, r => [r]
  | rec :: rest, i, r => if rec.id = i then r :: rest else rec :: dataSet rest i r

/-- The per-row write of `load_data` once the two assertions have passed:
intern the deduplicated raw attributes, store the sorted id list under the
annotator, and update `attr_stats` (increment for non-gold annotators,
ensure zero entries for gold). -/
def writeRec (annV attrV : Vocabulary) (annId : Nat) (rec : SenRecord)
    (row : Row) : SenRecord × Vocabulary :=
  let r := internAttrs attrV (distinctList row.attributes)
  let stored := sortNat r.1
  let annot' := alistSet rec.annot annId stored
  let stats' :=
    if annV.get_word annId ≠ some "gold" then
      stored.foldl counterInc rec.attr_stats
    else
      stored.foldl counterEnsure rec.attr_stats
  (⟨rec.id, rec.text, annot', stats'⟩, r.2)

/-- The body of the per-sentence loop of `load_data`: check text equality
for known ids (assertion error otherwise), create fresh records, reject a
duplicate (sentence, annotator) pair (assertion error), then write.  On an
error the state is returned exactly as it was when the assertion fired. -/
def processRow (annV : Vocabulary) (annId : Nat)
    (st : List SenRecord × Vocabulary) (row : Row) :
    (List SenRecord × Vocabulary) × Option Err :=
  match dataGet st.1 row.id with
  | some rec =>
      if rec.text ≠ row.text then (st, some (Err.textMismatch row.id))
      else if (alistGet rec.annot annId).isSome then (st, some Err.dupAnnot)
      else
        let w := writeRec annV st.2 annId rec row
        ((dataSet st.1 row.id w.1, w.2), none)
  | none =>
      let w := writeRec annV st.2 annId ⟨row.id, row.text, [], []⟩ row
      ((st.1 ++ [w.1], w.2), none)

/-- The inner row loop of `load_data` over one file, stopping at the first
raised exception and returning the state at that point. -/
def loadRows (annV : Vocabulary) (annId : Nat) :
    (List SenRecord × Vocabulary) → List Row →
    (List SenRecord × Vocabulary) × Option Err
  | st, [] => (st, none)
  | st, row :: rest =>
      match processRow annV annId st row with
      | (st', none) => loadRows annV annId st' rest
      | (st', some e) => ((st', some e) : (List SenRecord × Vocabulary) × Option Err)

/-- One input file at the level the claims are about: the annotator name
derived from the filename (already case-folded, as the `.lower()` call is
filename-parsing glue), and the rows yielded by `gen_sens_from_file`. -/
structure LoadFile where
  annName : String
  rows : List Row
  deriving DecidableEq

/-- The outer file loop of `load_data`: intern the (case-folded) annotator
name, then process each row. -/
def loadFiles :
    (List SenRecord × Vocabulary × Vocabulary) → List LoadFile →
    (List SenRecord × Vocabulary × Vocabulary) × Option Err
  | st, [] => (st, none)
  | (data, attrV, annV), f :: rest =>
      let r := annV.getIdNew f.annName
      match loadRows r.2 r.1 (data, attrV) f.rows with
      | ((data', attrV'), none) => loadFiles (data', attrV', r.2) rest
      | ((data', attrV'), some e) => (((data', attrV', r.2), some e))

/-- The function `load_data`: fold all files into the sentence map and the
two vocabularies, aborting at the first assertion failure. -/
def load_data (files : List LoadFile) :
    (List SenRecord × Vocabulary × Vocabulary) × Option Err :=
  loadFiles ([], ⟨[]⟩, ⟨[]⟩) files

/-- The quorum counter of `add_votes`: for each real annotator that is not
named `gold`, count every attribute in its entry (`KeyError` on a missing
entry, as in Python). -/
def countVotes (annV : Vocabulary) (realAnns : List Nat)
    (annot : List (Nat × List Nat)) : Except Err (List (Nat × Nat)) :=
  realAnns.foldlM
    (fun ctr ann =>
      if annV.get_word ann = some "gold" then pure ctr
      else
        match alistGet annot ann with
        | none => Except.error (Err.keyError ann)
        | some attrs => pure (attrs.foldl counterInc ctr))
    []

/-- The quorum set for threshold `n`: `sorted({attr | count >= n})`. -/
def voteSet (ctr : List (Nat × Nat)) (n : Nat) : List Nat :=
  sortNat ((ctr.filter (fun p => n ≤ p.2)).map Prod.fst)

/-- The per-sentence body of `add_votes`: build the quorum counter over the
real annotators and write the three quorum sets under the `min1`, `min2`,
`min3` ids (dict assignment, in order).  On a `KeyError` the sentence is
returned unmodified, as the exception fires during counting. -/
def senVotes (annV : Vocabulary) (realAnns : List Nat) (m1 m2 m3 : Nat)
    (sen : SenRecord) : SenRecord × Option Err :=
  match countVotes annV realAnns sen.annot with
  | Except.error e => (sen, some e)
  | Except.ok ctr =>
      ({ sen with
          annot :=
            alistSet (alistSet (alistSet sen.annot m1 (voteSet ctr 1))
              m2 (voteSet ctr 2)) m3 (voteSet ctr 3) },
        none)

/-- The sentence loop of `add_votes`, stopping at the first raised
exception; sentences processed before the exception keep their new
entries (Python mutates `data` in place). -/
def addVotesLoop (annV : Vocabulary) (realAnns : List Nat) (m1 m2 m3 : Nat) :
    List SenRecord → List SenRecord × Option Err
  | [] => ([], none)
  | sen :: rest =>
      match senVotes annV realAnns m1 m2 m3 sen with
      | (sen', none) =>
          let r := addVotesLoop annV realAnns m1 m2 m3 rest
          (sen' :: r.1, r.2)
      | (sen', some e) => (sen' :: rest, some e)

/-- The function `add_votes`: capture the list of annotator ids before
registering the vote annotators, register `min1`, `min2`, `min3` with
`allow_new=True`, then write the quorum sets into every sentence. -/
def add_votes (data : List SenRecord) (annV : Vocabulary) :
    (List SenRecord × Vocabulary) × Option Err :=
  let realAnns := List.range annV.words.length
  let r1 := annV.getIdNew "min1"
  let r2 := r1.2.getIdNew "min2"
  let r3 := r2.2.getIdNew "min3"
  let l := addVotesLoop r3.2 realAnns r1.1 r2.1 r3.1 data
  ((l.1, r3.2), l.2)

/-- The three figures counted by `eval_against_gold`. -/
inductive Fig where
  | TP
  | FN
  | FP
  deriving DecidableEq

/-- The nested `attr_stats` defaultdict of `eval_against_gold`, viewed as a
total function attribute id → annotator id → figure → count (a defaultdict
reads as 0 at absent entries). -/
def GoldStats : Type := Nat → Nat → Fig → Nat

/-- Increment of one cell of the `eval_against_gold` statistics. -/
def bumpStat (s : GoldStats) (attr ann : Nat) (f : Fig) : GoldStats :=
  fun a n g =>
    if a = attr ∧ n = ann ∧ g = f then s a n g + 1 else s a n g

/-- The per-sentence body of `eval_against_gold`: part 1 walks the gold
attributes and counts TP/FN for every non-gold annotator (a raw dict
lookup, so a missing entry raises `KeyError`); part 2 walks every non-gold
annotator's entry (after an explicit membership check raising the crafted
`ValueError`) and counts FP for attributes outside the gold set. -/
def evalSen (annIds : List Nat) (gold : Nat) (stats : GoldStats)
    (sen : SenRecord) : Except Err GoldStats := do
  match alistGet sen.annot gold with
  | none => Except.error (Err.keyError gold)
  | some goldAttrs =>
      let stats ← goldAttrs.foldlM
        (fun st attr =>
          annIds.foldlM
            (fun st ann =>
              if ann = gold then pure st
              else
                match alistGet sen.annot ann with
                | none => Except.error (Err.keyError ann)
                | some attrs =>
                    pure (bumpStat st attr ann
                      (if attr ∈ attrs then Fig.TP else Fig.FN)))
            st)
        stats
      annIds.foldlM
        (fun st ann =>
          if ann = gold then pure st
          else
            match alistGet sen.annot ann with
            | none => Except.error (Err.valueError sen.id ann)
            | some attrs =>
                pure (attrs.foldl
                  (fun st attr =>
                    if attr ∈ goldAttrs then st else bumpStat st attr ann Fig.FP)
                  st))
        stats

/-- The counting phase of `eval_against_gold` (the `total` row, ranking and
printing are report glue): look up the gold annotator (`KeyError` when
absent) and fold the per-sentence counting over the data. -/
def eval_against_gold (data : List SenRecord) (annV : Vocabulary) :
    Except Err GoldStats :=
  match annV.get_id "gold" with
  | none => Except.error (Err.keyErrorWord "gold")
  | some g =>
      data.foldlM (evalSen (List.range annV.words.length) g) (fun _ _ _ => 0)

/-- The dense rating tensor of `measure_agreement`, viewed as a total
function (attribute id, annotator id, sentence index) → 0/1. -/
def Ratings : Type := Nat → Nat → Nat → Nat

/-- Setting one tensor cell to 1 (`ratings[attr][ann][i] = 1`). -/
def ratingsSet (r : Ratings) (attr ann i : Nat) : Ratings :=
  fun a n j => if a = attr ∧ n = ann ∧ j = i then 1 else r a n j

/-- The tensor-filling loop of `measure_agreement`: for each sentence (by
index) and each known annotator id, a missing `annot` entry raises the
crafted `ValueError` naming the sentence and the annotator; otherwise each
selected attribute sets its cell to 1. -/
def buildRatings (numAnns : Nat) (data : List SenRecord) : Except Err Ratings :=
  data.enum.foldlM
    (fun r p =>
      (List.range numAnns).foldlM
        (fun r ann =>
          match alistGet p.2.annot ann with
          | none => Except.error (Err.valueError p.2.id ann)
          | some attrs =>
              pure (attrs.foldl (fun r attr => ratingsSet r attr ann p.1) r))
        r)
    (fun _ _ _ => 0)

/-- The slice `ratings[attr][ann]` as a vector over the sentence indices. -/
def vecOf (r : Ratings) (numSens attr ann : Nat) : List Nat :=
  (List.range numSens).map (fun i => r attr ann i)

/-- The kappa of one annotator pair in `measure_agreement`: 1.0 when both
binary vectors are all-zero (`not vec1.any() and not vec2.any()`), the
external `cohen_kappa_score` (the opaque `ext`) otherwise. -/
def pairKappa (ext : List Nat → List Nat → ℚ) (vec1 vec2 : List Nat) : ℚ :=
  if vec1.all (fun x => x = 0) ∧ vec2.all (fun x => x = 0) then 1
  else ext vec1 vec2

/-- The pair loop of `measure_agreement` for one attribute: every ordered
annotator pair with `ann1 < ann2`; the kappa is appended to the gold group
when either side is named `gold`, to the inter-annotator group otherwise.
Returns `(gold_kappas, attr_kappas)` in append order. -/
def kappaLists (ext : List Nat → List Nat → ℚ) (r : Ratings) (numSens : Nat)
    (anns : List (Nat × String)) (attr : Nat) : List ℚ × List ℚ :=
  anns.foldl
    (fun acc p1 =>
      anns.foldl
        (fun acc p2 =>
          if p2.1 ≤ p1.1 then acc
          else
            let k := pairKappa ext (vecOf r numSens attr p1.1) (vecOf r numSens attr p2.1)
            if p1.2 = "gold" ∨ p2.2 = "gold" then (acc.1 ++ [k], acc.2)
            else (acc.1, acc.2 ++ [k]))
        acc)
    ([], [])

/-- Sum of a list of rationals. -/
def listSum (l : List ℚ) : ℚ :=
  l.foldl (· + ·) 0

/-- The two averages of `measure_agreement` for one attribute:
`avg = sum(attr_kappas) / len(attr_kappas)` (a `ZeroDivisionError` when the
inter-annotator group is empty) and
`avg_gold = sum(gold_kappas) / len(gold_kappas) if gold_kappas else 0`.
Returns `(avg_gold, avg)`. -/
def attrAvgs (ext : List Nat → List Nat → ℚ) (r : Ratings) (numSens : Nat)
    (anns : List (Nat × String)) (attr : Nat) : Except Err (ℚ × ℚ) :=
  let kl := kappaLists ext r numSens anns attr
  if kl.2.length = 0 then Except.error Err.zeroDivision
  else
    Except.ok
      (if kl.1.isEmpty then 0 else listSum kl.1 / (kl.1.length : ℚ),
        listSum kl.2 / (kl.2.length : ℚ))

/-- The statistics core of `measure_agreement` (frequency ranking, the
`attr_stats` histogram string and the printing are report glue): build and
validate the rating tensor, then compute the two kappa averages for every
attribute id. -/
def measure_agreement (ext : List Nat → List Nat → ℚ)
    (anns : List (Nat × String)) (attrLen : Nat) (data : List SenRecord) :
    Except Err (List (ℚ × ℚ)) := do
  let r ← buildRatings anns.length data
  (List.range attrLen).mapM (attrAvgs ext r data.length anns)

/-- The function `all_equal`: true on an empty iterator, otherwise the
first element equals every later one. -/
def all_equal (l : List (List Nat)) : Bool :=
  match l with
  | [] => true
  | first :: rest => rest.all (fun x => first = x)

/-- The function `remove_empty`: keep the sentences where some annotator's
attribute list is truthy (non-empty). -/
def remove_empty (data : List SenRecord) : List SenRecord :=
  data.filter (fun sen => sen.annot.any (fun p => ¬p.2.isEmpty))

/-- The observable content of `print_data` for the claims: per sentence,
the id together with the `full_agreement` flag
`all_equal(sen['annot'].values())` computed at write time. -/
def print_data (data : List SenRecord) : List (String × Bool) :=
  data.map (fun sen => (sen.id, all_equal (sen.annot.map Prod.snd)))

/-- The pipeline of `main` in call order: `load_data`, then `print_data`
(the TSV is written here), then `remove_empty` (the default
`IGNORE_EMPTY = True`), then `measure_agreement`, `add_votes` and
`eval_against_gold`.  Returns the written report rows and the first raised
exception, if any; the report survives later exceptions because the file
is written before they can fire. -/
def mainPipeline (ext : List Nat → List Nat → ℚ) (files : List LoadFile) :
    List (String × Bool) × Option Err :=
  match load_data files with
  | (_, some e) => ([], some e)
  | ((data, attrV, annV), none) =>
      let report := print_data data
      let data2 := remove_empty data
      match measure_agreement ext annV.words.enum attrV.words.length data2 with
      | Except.error e => (report, some e)
      | Except.ok _ =>
          match add_votes data2 annV with
          | (_, some e) => (report, some e)
          | ((data3, annV3), none) =>
              match eval_against_gold data3 annV3 with
              | Except.error e => (report, some e)
              | Except.ok _ => (report, none)

/-- Whether an annotator id is named `gold` in a vocabulary. -/
def isGold (annV : Vocabulary) (ann : Nat) : Bool :=
  annV.get_word ann == some "gold"

/-- Whether, in a sentence's `annot` map, the annotator's entry contains the
attribute (false when the entry is missing). -/
def selectsB (annot : List (Nat × List Nat)) (ann attr : Nat) : Bool :=
  match alistGet annot ann with
  | some l => l.contains attr
  | none => false

/-- The number of non-gold annotators among `realAnns` whose entry contains
the attribute: the quorum count the vote synthesizer is specified over. -/
def quorumCount (annV : Vocabulary) (realAnns : List Nat)
    (annot : List (Nat × List Nat)) (attr : Nat) : Nat :=
  (realAnns.filter (fun ann => !isGold annV ann && selectsB annot ann attr)).length

/-- The total number of occurrences of an attribute id across the non-gold
entries of a sentence's `annot` map (an annotator whose stored list holds
the id twice contributes twice). -/
def statsSum (annV : Vocabulary) (annot : List (Nat × List Nat)) (a : Nat) : Nat :=
  (annot.map (fun p => if isGold annV p.1 then 0 else p.2.count a)).sum

/-- Invariant of one loaded sentence record relative to the annotator
vocabulary: stored lists are sorted, annot keys are valid annotator ids,
`attr_stats` counts the occurrences of each attribute across non-gold
entries, and every attribute of a gold entry has an `attr_stats` key. -/
def RecordInv (annV : Vocabulary) (rec : SenRecord) : Prop :=
  (∀ p ∈ rec.annot, List.Sorted (· ≤ ·) p.2) ∧
  (∀ p ∈ rec.annot, p.1 < annV.words.length) ∧
  (∀ a, counterGet rec.attr_stats a = statsSum annV rec.annot a) ∧
  (∀ p ∈ rec.annot, isGold annV p.1 = true →
    ∀ a ∈ p.2, (alistGet rec.attr_stats a).isSome = true)

/-- An opaque stand-in for the external `cohen_kappa_score`, used to
instantiate universally quantified theorems at a concrete input. -/
def extZero : List Nat → List Nat → ℚ :=
  fun _ _ => 0

/-- Concrete input file exhibiting the normalization-order collision: one
row carries both raw labels `BBDachneigungMax` and `DachneigungMax`. -/
def collisionFile : LoadFile :=
  ⟨"ann1", [⟨"s1", "t", ["BBDachneigungMax", "DachneigungMax"]⟩]⟩

/-- Concrete three-annotator single-sentence input (gold and two real
annotators, all selecting the same single attribute). -/
def agreeFiles : List LoadFile :=
  [⟨"gold", [⟨"s1", "t", ["A"]⟩]⟩,
   ⟨"a", [⟨"s1", "t", ["A"]⟩]⟩,
   ⟨"b", [⟨"s1", "t", ["A"]⟩]⟩]

/-- Concrete two-sentence data for the gold-evaluator example: gold (id 0)
picks attribute 0, annotator 1 picks attribute 0, annotator 2 picks
attribute 1, on each sentence. -/
def goldExampleData : List SenRecord :=
  [⟨"s1", "t", [(0, [0]), (1, [0]), (2, [1])], []⟩,
   ⟨"s2", "u", [(0, [0]), (1, [0]), (2, [1])], []⟩]

/-- Annotator vocabulary for the gold-evaluator example. -/
def goldExampleVocab : Vocabulary :=
  ⟨["gold", "ann1", "ann2"]⟩

/-- Concrete data where the gold annotator (id 0) selected an attribute on
the sentence and annotator 1 has no `annot` entry. -/
def missingAnnData : List SenRecord :=
  [⟨"s1", "t", [(0, [3])], []⟩]

/-- Two-annotator vocabulary (gold and one real annotator). -/
def missingAnnVocab : Vocabulary :=
  ⟨["gold", "a"]⟩

/-- Concrete data for the vote-synthesizer aliasing counterexample: the
annotator vocabulary already contains an annotator literally named `min1`
(id 2) whose entry is empty, next to gold (id 0) and a real annotator
(id 1) that selected attribute 7. -/
def aliasData : List SenRecord :=
  [⟨"s1", "t", [(0, []), (1, [7]), (2, [])], []⟩]

/-- Annotator vocabulary containing a preexisting `min1` annotator. -/
def aliasVocab : Vocabulary :=
  ⟨["gold", "a", "min1"]⟩

/-- Concrete data for the vote-synthesis witness: one sentence annotated by
gold (id 0) and two real annotators (ids 1, 2), all selecting attribute 0. -/
def voteData : List SenRecord :=
  [⟨"s1", "t", [(0, [0]), (1, [0]), (2, [0])], [(0, 2)]⟩]

/-- Annotator vocabulary for the vote-synthesis witness. -/
def voteVocab : Vocabulary :=
  ⟨["gold", "a", "b"]⟩

/-- Concrete data where the gold annotator (id 0) selected nothing on the
sentence and annotator 1 has no `annot` entry. -/
def goldEmptyData : List SenRecord :=
  [⟨"s1", "t", [(0, [])], []⟩]

/-- The loader state after loading `collisionFile`: one record for
sentence s1 with annotator 0 and the duplicated interned id 0. -/
def loadedSt : List SenRecord × Vocabulary :=
  ([⟨"s1", "t", [(0, [0, 0])], [(0, 2)]⟩], ⟨["DachneigungMax"]⟩)

theorem alistGet_alistSet {β : Type} (l : List (Nat × β)) (k j : Nat) (v : β) :
    alistGet (alistSet l k v) j = if k = j then some v else alistGet l j := by
  induction l with
  | nil =>
      simp only [alistSet, alistGet]
  | cons p rest ih =>
      simp only [alistSet, alistGet]
      by_cases hpk : p.1 = k
      · simp only [if_pos hpk, alistGet]
        by_cases hkj : k = j
        · simp [hkj]
        · have hpj : ¬ p.1 = j := by rw [hpk]; exact hkj
          simp [hkj, hpj]
      · simp only [if_neg hpk, alistGet, ih]
        by_cases hpj : p.1 = j
        · have hkj : ¬ k = j := by
            intro he
            exact hpk (by rw [hpj, he])
          simp [hpj, hkj]
        · simp [hpj]

theorem alistGet_mem {β : Type} {l : List (Nat × β)} {j : Nat} {v : β}
    (h : alistGet l j = some v) : (j, v) ∈ l := by
  induction l with
  | nil => simp [alistGet] at h
  | cons p rest ih =>
      simp only [alistGet] at h
      by_cases hpj : p.1 = j
      · rw [if_pos hpj] at h
        have hv : p.2 = v := Option.some.inj h
        have : p = (j, v) := by
          obtain ⟨a, b⟩ := p
          simp_all
        rw [← this]
        exact List.mem_cons_self p rest
      · rw [if_neg hpj] at h
        exact List.mem_cons_of_mem _ (ih h)

theorem mem_alistGet {β : Type} {l : List (Nat × β)} {j : Nat} {v : β}
    (hnd : (l.map Prod.fst).Nodup) (h : (j, v) ∈ l) : alistGet l j = some v := by
  induction l with
  | nil => simp at h
  | cons p rest ih =>
      simp only [List.map_cons, List.nodup_cons] at hnd
      rcases List.mem_cons.mp h with h1 | h2
      · rw [← h1]
        simp [alistGet]
      · have hne : p.1 ≠ j := by
          intro he
          exact hnd.1 (he ▸ (List.mem_map_of_mem Prod.fst h2))
        simp only [alistGet, if_neg hne]
        exact ih hnd.2 h2

theorem counterGet_counterInc (c : List (Nat × Nat)) (k j : Nat) :
    counterGet (counterInc c k) j =
      if k = j then counterGet c j + 1 else counterGet c j := by
  induction c with
  | nil =>
      simp only [counterInc, counterGet, alistGet]
      by_cases hkj : k = j <;> simp [hkj]
  | cons p rest ih =>
      simp only [counterInc, counterGet, alistGet]
      by_cases hpk : p.1 = k
      · simp only [if_pos hpk, alistGet]
        by_cases hkj : k = j
        · have hpj : p.1 = j := by rw [hpk, hkj]
          simp [hkj, hpj, counterGet]
        · have hpj : ¬ p.1 = j := by rw [hpk]; exact hkj
          simp [hkj, hpj, counterGet]
      · simp only [if_neg hpk, alistGet]
        by_cases hpj : p.1 = j
        · have hkj : ¬ k = j := by
            intro he
            exact hpk (by rw [hpj, he])
          simp [hpj, hkj]
        · simpa [counterGet, hpj] using ih

theorem counterGet_foldl_counterInc (l : List Nat) (c : List (Nat × Nat)) (j : Nat) :
    counterGet (l.foldl counterInc c) j = counterGet c j + l.count j := by
  induction l generalizing c with
  | nil => simp
  | cons x rest ih =>
      rw [List.foldl_cons, ih, counterGet_counterInc, List.count_cons]
      by_cases hxj : x = j
      · subst hxj
        simp only [if_pos rfl, beq_self_eq_true, if_true]
        omega
      · have h2 : ¬ j = x := fun h => hxj h.symm
        simp only [if_neg hxj, beq_iff_eq, if_neg h2]
        omega

theorem counterInc_keys (c : List (Nat × Nat)) (k : Nat) :
    (counterInc c k).map Prod.fst =
      if k ∈ c.map Prod.fst then c.map Prod.fst else c.map Prod.fst ++ [k] := by
  induction c with
  | nil => simp [counterInc]
  | cons p rest ih =>
      by_cases hpk : p.1 = k
      · simp only [counterInc, if_pos hpk, List.map_cons]
        have : k ∈ p.1 :: rest.map Prod.fst := by
          rw [hpk]
          exact List.mem_cons_self _ _
        simp [this]
      · simp only [counterInc, if_neg hpk, List.map_cons, ih]
        have hk : k ∈ p.1 :: rest.map Prod.fst ↔ k ∈ rest.map Prod.fst := by
          constructor
          · intro h
            rcases List.mem_cons.mp h with h1 | h2
            · exact absurd h1.symm hpk
            · exact h2
          · exact List.mem_cons_of_mem _
        by_cases hkr : k ∈ rest.map Prod.fst
        · simp [hkr, hk.mpr hkr]
        · have : ¬ k ∈ p.1 :: rest.map Prod.fst := fun h => hkr (hk.mp h)
          simp [hkr, this]

theorem counterInc_keys_nodup {c : List (Nat × Nat)} (h : (c.map Prod.fst).Nodup)
    (k : Nat) : ((counterInc c k).map Prod.fst).Nodup := by
  rw [counterInc_keys]
  by_cases hk : k ∈ c.map Prod.fst
  · simp [hk, h]
  · simp only [if_neg hk]
    rw [List.nodup_append]
    refine ⟨h, List.nodup_singleton k, ?_⟩
    intro a ha hka
    exact hk ((List.mem_singleton.mp hka) ▸ ha)

theorem sortNat_sorted (l : List Nat) : List.Sorted (· ≤ ·) (sortNat l) :=
  List.sorted_insertionSort (· ≤ ·) l

theorem sortNat_perm (l : List Nat) : List.Perm (sortNat l) l :=
  List.perm_insertionSort (· ≤ ·) l

theorem mem_sortNat {l : List Nat} {x : Nat} : x ∈ sortNat l ↔ x ∈ l :=
  (sortNat_perm l).mem_iff

theorem sortNat_nodup {l : List Nat} (h : l.Nodup) : (sortNat l).Nodup :=
  (sortNat_perm l).nodup_iff.mpr h

theorem mem_voteSet {ctr : List (Nat × Nat)} {n j : Nat}
    (hnd : (ctr.map Prod.fst).Nodup) (hn : 1 ≤ n) :
    j ∈ voteSet ctr n ↔ n ≤ counterGet ctr j := by
  unfold voteSet
  rw [mem_sortNat, List.mem_map]
  constructor
  · rintro ⟨p, hp, hfst⟩
    rw [List.mem_filter] at hp
    have hget : alistGet ctr j = some p.2 := by
      rw [← hfst]
      exact mem_alistGet hnd (by
        have : p = (p.1, p.2) := rfl
        exact this ▸ hp.1)
    have : counterGet ctr j = p.2 := by
      simp [counterGet, hget]
    rw [this]
    exact Nat.le_of_ble_eq_true (by simpa using hp.2)
  · intro hge
    have hsome : ∃ v, alistGet ctr j = some v := by
      cases hv : alistGet ctr j with
      | none =>
          exfalso
          have : counterGet ctr j = 0 := by simp [counterGet, hv]
          omega
      | some v => exact ⟨v, rfl⟩
    obtain ⟨v, hv⟩ := hsome
    have hvge : n ≤ v := by
      have : counterGet ctr j = v := by simp [counterGet, hv]
      omega
    refine ⟨(j, v), ?_, rfl⟩
    rw [List.mem_filter]
    exact ⟨alistGet_mem hv, by simpa using hvge⟩

theorem foldl_counterInc_keys_nodup {c : List (Nat × Nat)}
    (h : (c.map Prod.fst).Nodup) (l : List Nat) :
    ((l.foldl counterInc c).map Prod.fst).Nodup := by
  induction l generalizing c with
  | nil => exact h
  | cons x rest ih => exact ih (counterInc_keys_nodup h x)

theorem countVotes_aux (annV : Vocabulary) (annot : List (Nat × List Nat)) :
    ∀ (realAnns : List Nat) (c0 : List (Nat × Nat)),
    (∀ ann ∈ realAnns, annV.get_word ann ≠ some "gold" →
      (alistGet annot ann).isSome = true) →
    ∃ ctr,
      (realAnns.foldlM (fun ctr ann =>
        if annV.get_word ann = some "gold" then pure ctr
        else
          match alistGet annot ann with
          | none => Except.error (Err.keyError ann)
          | some attrs => pure (attrs.foldl counterInc ctr)) c0 : Except Err _)
        = Except.ok ctr ∧
      ((c0.map Prod.fst).Nodup → (ctr.map Prod.fst).Nodup) ∧
      ∀ j, counterGet ctr j = counterGet c0 j +
        (realAnns.map (fun ann =>
          if annV.get_word ann = some "gold" then 0
          else ((alistGet annot ann).getD []).count j)).sum := by
  intro realAnns
  induction realAnns with
  | nil =>
      intro c0 _
      exact ⟨c0, rfl, fun h => h, fun j => by simp⟩
  | cons a rest ih =>
      intro c0 hent
      by_cases hg : annV.get_word a = some "gold"
      · obtain ⟨ctr, hok, hnd, hget⟩ :=
          ih c0 (fun ann hm => hent ann (List.mem_cons_of_mem _ hm))
        refine ⟨ctr, ?_, hnd, ?_⟩
        · simpa [List.foldlM_cons, hg] using hok
        · intro j
          simp [hget j, hg]
      · have hsome := hent a (List.mem_cons_self a rest) hg
        cases hv : alistGet annot a with
        | none => rw [hv] at hsome; simp at hsome
        | some attrs =>
            obtain ⟨ctr, hok, hnd, hget⟩ :=
              ih (attrs.foldl counterInc c0)
                (fun ann hm => hent ann (List.mem_cons_of_mem _ hm))
            refine ⟨ctr, ?_, ?_, ?_⟩
            · simpa [List.foldlM_cons, hg, hv] using hok
            · intro h0
              exact hnd (foldl_counterInc_keys_nodup h0 attrs)
            · intro j
              rw [hget j, counterGet_foldl_counterInc]
              simp [hg, hv]
              omega

theorem countVotes_ok (annV : Vocabulary) (annot : List (Nat × List Nat))
    (realAnns : List Nat)
    (hent : ∀ ann ∈ realAnns, annV.get_word ann ≠ some "gold" →
      (alistGet annot ann).isSome = true) :
    ∃ ctr, countVotes annV realAnns annot = Except.ok ctr ∧
      (ctr.map Prod.fst).Nodup ∧
      ∀ j, counterGet ctr j =
        (realAnns.map (fun ann =>
          if annV.get_word ann = some "gold" then 0
          else ((alistGet annot ann).getD []).count j)).sum := by
  obtain ⟨ctr, hok, hnd, hget⟩ := countVotes_aux annV annot realAnns [] hent
  refine ⟨ctr, hok, hnd (by simp), fun j => ?_⟩
  have := hget j
  simpa [counterGet, alistGet] using this

theorem isGold_true_iff (v : Vocabulary) (a : Nat) :
    isGold v a = true ↔ v.get_word a = some "gold" := by
  simp [isGold]

theorem selectsB_true_iff (annot : List (Nat × List Nat)) (ann attr : Nat) :
    selectsB annot ann attr = true ↔
      ∃ l, alistGet annot ann = some l ∧ attr ∈ l := by
  unfold selectsB
  cases hv : alistGet annot ann with
  | none => simp
  | some l => simp [List.contains]

theorem sum_count_eq_quorum (annV : Vocabulary) (annot : List (Nat × List Nat))
    (realAnns : List Nat) (j : Nat)
    (hnd : ∀ ann ∈ realAnns, ∀ l, alistGet annot ann = some l → l.Nodup) :
    (realAnns.map (fun ann =>
      if annV.get_word ann = some "gold" then 0
      else ((alistGet annot ann).getD []).count j)).sum =
    quorumCount annV realAnns annot j := by
  induction realAnns with
  | nil => simp [quorumCount]
  | cons a rest ih =>
      have ihr := ih (fun ann hm => hnd ann (List.mem_cons_of_mem _ hm))
      simp only [List.map_cons, List.sum_cons, quorumCount, List.filter_cons]
      by_cases hg : annV.get_word a = some "gold"
      · have : (!isGold annV a && selectsB annot a j) = false := by
          simp [isGold, hg]
        simp only [if_pos hg, this, Bool.false_eq_true, if_false]
        rw [ihr]
        simp [quorumCount]
      · have hig : isGold annV a = false := by
          simp [isGold, hg]
        cases hv : alistGet annot a with
        | none =>
            have : (!isGold annV a && selectsB annot a j) = false := by
              simp [selectsB, hv]
            simp only [if_neg hg, hv, this, Bool.false_eq_true, if_false]
            rw [ihr]
            simp [quorumCount]
        | some l =>
            have hlnd : l.Nodup := hnd a (List.mem_cons_self a rest) l hv
            by_cases hj : j ∈ l
            · have hc : l.count j = 1 := List.count_eq_one_of_mem hlnd hj
              have : (!isGold annV a && selectsB annot a j) = true := by
                simp only [hig, Bool.not_false, Bool.true_and]
                exact (selectsB_true_iff annot a j).mpr ⟨l, hv, hj⟩
              simp only [if_neg hg, hv, this, if_true]
              rw [ihr]
              simp [quorumCount, Option.getD, hc]
              omega
            · have hc : l.count j = 0 := by
                simp [List.count_eq_zero]
                exact hj
              have : (!isGold annV a && selectsB annot a j) = false := by
                rcases Bool.eq_false_or_eq_true (selectsB annot a j) with h | h
                · exfalso
                  obtain ⟨l2, hv2, hj2⟩ := (selectsB_true_iff annot a j).mp h
                  rw [hv] at hv2
                  exact hj ((Option.some.inj hv2) ▸ hj2)
                · simp [h]
              simp only [if_neg hg, hv, this, Bool.false_eq_true, if_false]
              rw [ihr]
              simp [quorumCount, hc]

theorem findIdxA_some {l : List String} {w : String} {i : Nat}
    (h : findIdxA l w = some i) : l[i]? = some w := by
  induction l generalizing i with
  | nil => simp [findIdxA] at h
  | cons x rest ih =>
      simp only [findIdxA] at h
      by_cases hx : x = w
      · rw [if_pos hx] at h
        obtain rfl := Option.some.inj h
        simp [hx]
      · rw [if_neg hx] at h
        cases hr : findIdxA rest w with
        | none => rw [hr] at h; simp at h
        | some k =>
            rw [hr] at h
            simp only [Option.map_some'] at h
            obtain rfl := Option.some.inj h
            simpa using ih hr

theorem findIdxA_none_iff {l : List String} {w : String} :
    findIdxA l w = none ↔ w ∉ l := by
  induction l with
  | nil => simp [findIdxA]
  | cons x rest ih =>
      simp only [findIdxA]
      by_cases hx : x = w
      · simp [hx]
      · rw [if_neg hx, Option.map_eq_none', ih]
        simp only [List.mem_cons]
        constructor
        · intro h hm
          rcases hm with h1 | h2
          · exact hx h1.symm
          · exact h h2
        · intro h hm
          exact h (Or.inr hm)

theorem getIdNew_words (v : Vocabulary) (w : String) :
    (v.getIdNew w).2.words = v.words ∨ (v.getIdNew w).2.words = v.words ++ [w] := by
  unfold Vocabulary.getIdNew
  cases h : v.get_id w with
  | some i => left; rfl
  | none => right; rfl

theorem getIdNew_fresh {v : Vocabulary} {w : String} (h : w ∉ v.words) :
    v.getIdNew w = (v.words.length, ⟨v.words ++ [w]⟩) := by
  unfold Vocabulary.getIdNew
  have : v.get_id w = none := by
    unfold Vocabulary.get_id
    exact findIdxA_none_iff.mpr h
  rw [this]

theorem get_word_getIdNew_self (v : Vocabulary) (w : String) :
    (v.getIdNew w).2.get_word (v.getIdNew w).1 = some w := by
  unfold Vocabulary.getIdNew
  cases h : v.get_id w with
  | some i =>
      simpa [Vocabulary.get_word] using findIdxA_some h
  | none =>
      simp only [Vocabulary.get_word]
      exact List.getElem?_concat_length v.words w

theorem get_word_stable (v : Vocabulary) (w : String) {i : Nat}
    (h : i < v.words.length) :
    (v.getIdNew w).2.get_word i = v.get_word i := by
  rcases getIdNew_words v w with he | he
  · unfold Vocabulary.get_word
    rw [he]
  · unfold Vocabulary.get_word
    rw [he]
    exact List.getElem?_append_left h

theorem getIdNew_lt (v : Vocabulary) (w : String) :
    (v.getIdNew w).1 < (v.getIdNew w).2.words.length := by
  unfold Vocabulary.getIdNew
  cases h : v.get_id w with
  | some i =>
      have h2 : v.words[i]? = some w :=
        findIdxA_some (h ▸ rfl : findIdxA v.words w = some i)
      have := List.getElem?_eq_some.mp h2
      simpa using this.1
  | none => simp

theorem getIdNew_le (v : Vocabulary) (w : String) :
    v.words.length ≤ (v.getIdNew w).2.words.length := by
  rcases getIdNew_words v w with he | he
  · rw [he]
  · rw [he]
    simp

theorem alistSet_keys {β : Type} (l : List (Nat × β)) (k : Nat) (v : β) :
    (alistSet l k v).map Prod.fst =
      if k ∈ l.map Prod.fst then l.map Prod.fst else l.map Prod.fst ++ [k] := by
  induction l with
  | nil => simp [alistSet]
  | cons p rest ih =>
      by_cases hpk : p.1 = k
      · simp only [alistSet, if_pos hpk, List.map_cons]
        have : k ∈ p.1 :: rest.map Prod.fst := by
          rw [hpk]
          exact List.mem_cons_self _ _
        simp [this, hpk]
      · simp only [alistSet, if_neg hpk, List.map_cons, ih]
        by_cases hkr : k ∈ rest.map Prod.fst
        · have : k ∈ p.1 :: rest.map Prod.fst := List.mem_cons_of_mem _ hkr
          simp [hkr, this]
        · have : ¬ k ∈ p.1 :: rest.map Prod.fst := by
            intro h
            rcases List.mem_cons.mp h with h1 | h2
            · exact hpk h1.symm
            · exact hkr h2
          simp [hkr, this]

theorem voteSet_sorted (ctr : List (Nat × Nat)) (n : Nat) :
    List.Sorted (· ≤ ·) (voteSet ctr n) :=
  sortNat_sorted _

theorem voteSet_nodup {ctr : List (Nat × Nat)}
    (hnd : (ctr.map Prod.fst).Nodup) (n : Nat) : (voteSet ctr n).Nodup := by
  apply sortNat_nodup
  have hsub : List.Sublist ((ctr.filter (fun p => n ≤ p.2)).map Prod.fst)
      (ctr.map Prod.fst) :=
    (List.filter_sublist ctr).map Prod.fst
  exact hnd.sublist hsub

theorem quorumCount_congr {v v' : Vocabulary} (realAnns : List Nat)
    (annot : List (Nat × List Nat)) (j : Nat)
    (h : ∀ ann ∈ realAnns, v.get_word ann = v'.get_word ann) :
    quorumCount v realAnns annot j = quorumCount v' realAnns annot j := by
  unfold quorumCount
  congr 1
  apply List.filter_congr
  intro ann hm
  rw [isGold, isGold, h ann hm]

theorem one_le_quorum_iff (annV : Vocabulary) (realAnns : List Nat)
    (annot : List (Nat × List Nat)) (j : Nat) :
    1 ≤ quorumCount annV realAnns annot j ↔
      ∃ ann ∈ realAnns, isGold annV ann = false ∧ selectsB annot ann j = true := by
  unfold quorumCount
  rw [Nat.one_le_iff_ne_zero]
  constructor
  · intro h
    have : (realAnns.filter (fun ann => !isGold annV ann && selectsB annot ann j)) ≠ [] := by
      intro he
      exact h (by rw [he]; rfl)
    obtain ⟨a, ha⟩ := List.exists_mem_of_ne_nil _ this
    rw [List.mem_filter] at ha
    refine ⟨a, ha.1, ?_, ?_⟩
    · rcases Bool.eq_false_or_eq_true (isGold annV a) with hb | hb
      · simpa [hb] using ha.2
      · exact hb
    · simpa using (Bool.and_eq_true _ _ |>.mp ha.2).2
  · rintro ⟨a, ham, hg, hs⟩
    have : a ∈ realAnns.filter (fun ann => !isGold annV ann && selectsB annot ann j) := by
      rw [List.mem_filter]
      exact ⟨ham, by simp [hg, hs]⟩
    intro hlen
    rw [List.length_eq_zero] at hlen
    rw [hlen] at this
    simp at this

theorem senVotes_spec (annV : Vocabulary) (realAnns : List Nat) (m1 m2 m3 : Nat)
    (sen : SenRecord)
    (hent : ∀ ann ∈ realAnns, annV.get_word ann ≠ some "gold" →
      (alistGet sen.annot ann).isSome = true)
    (hnd : ∀ ann ∈ realAnns, ∀ l, alistGet sen.annot ann = some l → l.Nodup)
    (h12 : m1 ≠ m2) (h13 : m1 ≠ m3) (h23 : m2 ≠ m3) :
    ∃ sen', senVotes annV realAnns m1 m2 m3 sen = (sen', none) ∧
      sen'.id = sen.id ∧ sen'.text = sen.text ∧ sen'.attr_stats = sen.attr_stats ∧
      (∀ j, j ≠ m1 → j ≠ m2 → j ≠ m3 →
        alistGet sen'.annot j = alistGet sen.annot j) ∧
      (∀ n mn, ((n, mn) = (1, m1) ∨ (n, mn) = (2, m2) ∨ (n, mn) = (3, m3)) →
        ∃ ln, alistGet sen'.annot mn = some ln ∧ List.Sorted (· ≤ ·) ln ∧
          ln.Nodup ∧
          ∀ j, j ∈ ln ↔ n ≤ quorumCount annV realAnns sen.annot j) ∧
      (m1 ∉ sen.annot.map Prod.fst → m2 ∉ sen.annot.map Prod.fst →
        m3 ∉ sen.annot.map Prod.fst →
        sen'.annot.map Prod.fst = sen.annot.map Prod.fst ++ [m1, m2, m3]) := by
  obtain ⟨ctr, hok, hknd, hget⟩ := countVotes_ok annV sen.annot realAnns hent
  have hquorum : ∀ j, counterGet ctr j = quorumCount annV realAnns sen.annot j := by
    intro j
    rw [hget j, sum_count_eq_quorum annV sen.annot realAnns j hnd]
  refine ⟨{ sen with
      annot := alistSet (alistSet (alistSet sen.annot m1 (voteSet ctr 1))
        m2 (voteSet ctr 2)) m3 (voteSet ctr 3) }, ?_, rfl, rfl, rfl, ?_, ?_, ?_⟩
  · unfold senVotes
    rw [hok]
  · intro j hj1 hj2 hj3
    dsimp only
    rw [alistGet_alistSet, if_neg (fun h => hj3 h.symm),
      alistGet_alistSet, if_neg (fun h => hj2 h.symm),
      alistGet_alistSet, if_neg (fun h => hj1 h.symm)]
  · intro n mn hnm
    have hmem : ∀ k, k ∈ voteSet ctr n ↔ n ≤ quorumCount annV realAnns sen.annot k := by
      intro k
      have hn1 : 1 ≤ n := by
        rcases hnm with h | h | h <;> (obtain ⟨rfl, rfl⟩ := Prod.mk.inj h) <;> omega
      rw [mem_voteSet hknd hn1, hquorum]
    rcases hnm with h | h | h <;> obtain ⟨rfl, rfl⟩ := Prod.mk.inj h
    · refine ⟨voteSet ctr 1, ?_, voteSet_sorted ctr 1, voteSet_nodup hknd 1, hmem⟩
      dsimp only
      rw [alistGet_alistSet, if_neg (fun h => h13 h.symm),
        alistGet_alistSet, if_neg (fun h => h12 h.symm),
        alistGet_alistSet, if_pos rfl]
    · refine ⟨voteSet ctr 2, ?_, voteSet_sorted ctr 2, voteSet_nodup hknd 2, hmem⟩
      dsimp only
      rw [alistGet_alistSet, if_neg (fun h => h23 h.symm),
        alistGet_alistSet, if_pos rfl]
    · refine ⟨voteSet ctr 3, ?_, voteSet_sorted ctr 3, voteSet_nodup hknd 3, hmem⟩
      dsimp only
      rw [alistGet_alistSet, if_pos rfl]
  · intro hf1 hf2 hf3
    dsimp only
    rw [alistSet_keys, alistSet_keys, alistSet_keys, if_neg hf1]
    have hf2' : m2 ∉ sen.annot.map Prod.fst ++ [m1] := by
      intro h
      rcases List.mem_append.mp h with h | h
      · exact hf2 h
      · exact h12 (List.mem_singleton.mp h).symm
    rw [if_neg hf2']
    have hf3' : m3 ∉ (sen.annot.map Prod.fst ++ [m1]) ++ [m2] := by
      intro h
      rcases List.mem_append.mp h with h | h
      · rcases List.mem_append.mp h with h | h
        · exact hf3 h
        · exact h13 (List.mem_singleton.mp h).symm
      · exact h23 (List.mem_singleton.mp h).symm
    rw [if_neg hf3']
    simp

theorem addVotesLoop_ok (annV : Vocabulary) (realAnns : List Nat)
    (m1 m2 m3 : Nat) (data : List SenRecord)
    (h : ∀ sen ∈ data, (senVotes annV realAnns m1 m2 m3 sen).2 = none) :
    addVotesLoop annV realAnns m1 m2 m3 data =
      (data.map (fun sen => (senVotes annV realAnns m1 m2 m3 sen).1), none) := by
  induction data with
  | nil => rfl
  | cons sen rest ih =>
      have hsv : senVotes annV realAnns m1 m2 m3 sen
          = ((senVotes annV realAnns m1 m2 m3 sen).1, none) := by
        rw [← h sen (List.mem_cons_self _ _)]
      unfold addVotesLoop
      rw [hsv]
      dsimp only
      rw [ih (fun s hs => h s (List.mem_cons_of_mem _ hs))]
      simp

theorem add_votes_spec (data : List SenRecord) (annV : Vocabulary)
    (hent : ∀ sen ∈ data, ∀ ann, ann < annV.words.length →
      annV.get_word ann ≠ some "gold" → (alistGet sen.annot ann).isSome = true)
    (hnd : ∀ sen ∈ data, ∀ ann, ann < annV.words.length →
      ((alistGet sen.annot ann).getD []).Nodup) :
    ∃ m1 m2 m3 v3 data',
      add_votes data annV = ((data', v3), none) ∧
      m1 = (annV.getIdNew "min1").1 ∧
      m2 = ((annV.getIdNew "min1").2.getIdNew "min2").1 ∧
      m3 = (((annV.getIdNew "min1").2.getIdNew "min2").2.getIdNew "min3").1 ∧
      v3 = (((annV.getIdNew "min1").2.getIdNew "min2").2.getIdNew "min3").2 ∧
      v3.get_word m1 = some "min1" ∧ v3.get_word m2 = some "min2" ∧
      v3.get_word m3 = some "min3" ∧
      m1 ≠ m2 ∧ m1 ≠ m3 ∧ m2 ≠ m3 ∧
      (∀ i, i < annV.words.length → v3.get_word i = annV.get_word i) ∧
      List.Forall₂ (fun sen sen' =>
        sen'.id = sen.id ∧ sen'.text = sen.text ∧
        sen'.attr_stats = sen.attr_stats ∧
        (∀ j, j ≠ m1 → j ≠ m2 → j ≠ m3 →
          alistGet sen'.annot j = alistGet sen.annot j) ∧
        (∀ n mn, ((n, mn) = (1, m1) ∨ (n, mn) = (2, m2) ∨ (n, mn) = (3, m3)) →
          ∃ ln, alistGet sen'.annot mn = some ln ∧ List.Sorted (· ≤ ·) ln ∧
            ln.Nodup ∧
            ∀ j, j ∈ ln ↔
              n ≤ quorumCount annV (List.range annV.words.length) sen.annot j) ∧
        (m1 ∉ sen.annot.map Prod.fst → m2 ∉ sen.annot.map Prod.fst →
          m3 ∉ sen.annot.map Prod.fst →
          sen'.annot.map Prod.fst = sen.annot.map Prod.fst ++ [m1, m2, m3]))
        data data' := by
  have hlt1 : (annV.getIdNew "min1").1 < (annV.getIdNew "min1").2.words.length :=
    getIdNew_lt annV "min1"
  have hle01 : annV.words.length ≤ (annV.getIdNew "min1").2.words.length :=
    getIdNew_le annV "min1"
  have hlt2 : ((annV.getIdNew "min1").2.getIdNew "min2").1 <
      ((annV.getIdNew "min1").2.getIdNew "min2").2.words.length :=
    getIdNew_lt (annV.getIdNew "min1").2 "min2"
  have hle12 : (annV.getIdNew "min1").2.words.length ≤
      ((annV.getIdNew "min1").2.getIdNew "min2").2.words.length :=
    getIdNew_le (annV.getIdNew "min1").2 "min2"
  set v1 := (annV.getIdNew "min1").2 with hv1
  set m1 := (annV.getIdNew "min1").1 with hm1
  set v2 := (v1.getIdNew "min2").2 with hv2
  set m2 := (v1.getIdNew "min2").1 with hm2
  set v3 := (v2.getIdNew "min3").2 with hv3
  set m3 := (v2.getIdNew "min3").1 with hm3
  have hw1 : v3.get_word m1 = some "min1" := by
    rw [hv3, get_word_stable v2 "min3" (lt_of_lt_of_le hlt1 hle12),
      hv2, get_word_stable v1 "min2" hlt1, hv1, hm1]
    exact get_word_getIdNew_self annV "min1"
  have hw2 : v3.get_word m2 = some "min2" := by
    rw [hv3, get_word_stable v2 "min3" hlt2, hv2, hm2]
    exact get_word_getIdNew_self v1 "min2"
  have hw3 : v3.get_word m3 = some "min3" := by
    rw [hv3, hm3]
    exact get_word_getIdNew_self v2 "min3"
  have hne12 : m1 ≠ m2 := by
    intro h
    rw [h, hw2] at hw1
    simp at hw1
  have hne13 : m1 ≠ m3 := by
    intro h
    rw [h, hw3] at hw1
    simp at hw1
  have hne23 : m2 ≠ m3 := by
    intro h
    rw [h, hw3] at hw2
    simp at hw2
  have hstab : ∀ i, i < annV.words.length → v3.get_word i = annV.get_word i := by
    intro i hi
    rw [hv3, get_word_stable v2 "min3" (lt_of_lt_of_le hi (le_trans hle01 hle12)),
      hv2, get_word_stable v1 "min2" (lt_of_lt_of_le hi hle01),
      hv1, get_word_stable annV "min1" hi]
  have hspec : ∀ sen ∈ data, ∃ sen',
      senVotes v3 (List.range annV.words.length) m1 m2 m3 sen = (sen', none) ∧
      sen'.id = sen.id ∧ sen'.text = sen.text ∧
      sen'.attr_stats = sen.attr_stats ∧
      (∀ j, j ≠ m1 → j ≠ m2 → j ≠ m3 →
        alistGet sen'.annot j = alistGet sen.annot j) ∧
      (∀ n mn, ((n, mn) = (1, m1) ∨ (n, mn) = (2, m2) ∨ (n, mn) = (3, m3)) →
        ∃ ln, alistGet sen'.annot mn = some ln ∧ List.Sorted (· ≤ ·) ln ∧
          ln.Nodup ∧
          ∀ j, j ∈ ln ↔
            n ≤ quorumCount annV (List.range annV.words.length) sen.annot j) ∧
      (m1 ∉ sen.annot.map Prod.fst → m2 ∉ sen.annot.map Prod.fst →
        m3 ∉ sen.annot.map Prod.fst →
        sen'.annot.map Prod.fst = sen.annot.map Prod.fst ++ [m1, m2, m3]) := by
    intro sen hs
    have hqc : ∀ j, quorumCount v3 (List.range annV.words.length) sen.annot j =
        quorumCount annV (List.range annV.words.length) sen.annot j := by
      intro j
      exact quorumCount_congr _ _ _
        (fun ann hm => hstab ann (List.mem_range.mp hm))
    obtain ⟨sen', hsv, hid, htx, hst, hframe, hmins, hkeys⟩ :=
      senVotes_spec v3 (List.range annV.words.length) m1 m2 m3 sen
        (fun ann hm hg =>
          hent sen hs ann (List.mem_range.mp hm)
            (by rw [← hstab ann (List.mem_range.mp hm)]; exact hg))
        (fun ann hm l hl => by
          have h := hnd sen hs ann (List.mem_range.mp hm)
          rw [hl] at h
          simpa using h)
        hne12 hne13 hne23
    refine ⟨sen', hsv, hid, htx, hst, hframe, ?_, hkeys⟩
    intro n mn hnm
    obtain ⟨ln, hln, hsrt, hlnd, hmem⟩ := hmins n mn hnm
    exact ⟨ln, hln, hsrt, hlnd, fun j => by rw [hmem j, hqc j]⟩
  have hloop := addVotesLoop_ok v3 (List.range annV.words.length) m1 m2 m3 data
    (fun sen hs => by
      obtain ⟨sen', hsv, _⟩ := hspec sen hs
      rw [hsv])
  refine ⟨m1, m2, m3, v3,
    data.map (fun sen => (senVotes v3 (List.range annV.words.length) m1 m2 m3 sen).1),
    ?_, hm1, by rw [hm2, hv1], by rw [hm3, hv2, hv1], by rw [hv3, hv2, hv1],
    hw1, hw2, hw3, hne12, hne13, hne23, hstab, ?_⟩
  · show add_votes data annV = _
    simp only [add_votes]
    rw [← hv1, ← hm1, ← hv2, ← hm2, ← hv3, ← hm3, hloop]
  · rw [List.forall₂_map_right_iff, List.forall₂_same]
    intro sen hs
    obtain ⟨sen', hsv, hrest⟩ := hspec sen hs
    rw [hsv]
    exact hrest

/-- C1: after vote synthesis every sentence's `annot` map contains entries
for the three synthetic annotators named `min1`, `min2` and `min3`, and for
each quorum threshold N in 1, 2, 3 the entry for minN is the duplicate-free
sorted list of exactly those attribute ids selected by at least N non-gold
annotators for that sentence; consequently min3 ⊆ min2 ⊆ min1 and min1
equals the union of all non-gold annotators' attribute sets. -/
theorem vote_synthesis_quorum_sets (data : List SenRecord) (annV : Vocabulary)
    (hent : ∀ sen ∈ data, ∀ ann, ann < annV.words.length →
      annV.get_word ann ≠ some "gold" → (alistGet sen.annot ann).isSome = true)
    (hnd : ∀ sen ∈ data, ∀ ann, ann < annV.words.length →
      ((alistGet sen.annot ann).getD []).Nodup) :
    ∃ m1 m2 m3 v3 data',
      add_votes data annV = ((data', v3), none) ∧
      v3.get_word m1 = some "min1" ∧ v3.get_word m2 = some "min2" ∧
      v3.get_word m3 = some "min3" ∧
      List.Forall₂ (fun sen sen' =>
        ∃ l1 l2 l3,
          alistGet sen'.annot m1 = some l1 ∧
          alistGet sen'.annot m2 = some l2 ∧
          alistGet sen'.annot m3 = some l3 ∧
          List.Sorted (· ≤ ·) l1 ∧ l1.Nodup ∧
          List.Sorted (· ≤ ·) l2 ∧ l2.Nodup ∧
          List.Sorted (· ≤ ·) l3 ∧ l3.Nodup ∧
          (∀ j, j ∈ l1 ↔
            1 ≤ quorumCount annV (List.range annV.words.length) sen.annot j) ∧
          (∀ j, j ∈ l2 ↔
            2 ≤ quorumCount annV (List.range annV.words.length) sen.annot j) ∧
          (∀ j, j ∈ l3 ↔
            3 ≤ quorumCount annV (List.range annV.words.length) sen.annot j) ∧
          (∀ j, j ∈ l3 → j ∈ l2) ∧ (∀ j, j ∈ l2 → j ∈ l1) ∧
          (∀ j, j ∈ l1 ↔ ∃ ann ∈ List.range annV.words.length,
            isGold annV ann = false ∧ selectsB sen.annot ann j = true))
        data data' := by
  obtain ⟨m1, m2, m3, v3, data', hav, _, _, _, _, hw1, hw2, hw3, _, _, _, _, hfa⟩ :=
    add_votes_spec data annV hent hnd
  refine ⟨m1, m2, m3, v3, data', hav, hw1, hw2, hw3, ?_⟩
  refine List.Forall₂.imp ?_ hfa
  intro sen sen' hp
  obtain ⟨_, _, _, _, hmins, _⟩ := hp
  obtain ⟨l1, h1, hs1, hn1, hq1⟩ := hmins 1 m1 (Or.inl rfl)
  obtain ⟨l2, h2, hs2, hn2, hq2⟩ := hmins 2 m2 (Or.inr (Or.inl rfl))
  obtain ⟨l3, h3, hs3, hn3, hq3⟩ := hmins 3 m3 (Or.inr (Or.inr rfl))
  refine ⟨l1, l2, l3, h1, h2, h3, hs1, hn1, hs2, hn2, hs3, hn3,
    hq1, hq2, hq3, ?_, ?_, ?_⟩
  · intro j hj
    rw [hq2]
    have := (hq3 j).mp hj
    omega
  · intro j hj
    rw [hq1]
    have := (hq2 j).mp hj
    omega
  · intro j
    rw [hq1 j, one_le_quorum_iff]

/-- Witness for C1 at a concrete input: one sentence, gold plus two real
annotators all selecting attribute 0. -/
theorem vote_synthesis_quorum_sets_witness :
    ∃ m1 m2 m3 v3 data',
      add_votes voteData voteVocab = ((data', v3), none) ∧
      v3.get_word m1 = some "min1" ∧ v3.get_word m2 = some "min2" ∧
      v3.get_word m3 = some "min3" ∧
      List.Forall₂ (fun sen sen' =>
        ∃ l1 l2 l3,
          alistGet sen'.annot m1 = some l1 ∧
          alistGet sen'.annot m2 = some l2 ∧
          alistGet sen'.annot m3 = some l3 ∧
          List.Sorted (· ≤ ·) l1 ∧ l1.Nodup ∧
          List.Sorted (· ≤ ·) l2 ∧ l2.Nodup ∧
          List.Sorted (· ≤ ·) l3 ∧ l3.Nodup ∧
          (∀ j, j ∈ l1 ↔
            1 ≤ quorumCount voteVocab (List.range voteVocab.words.length) sen.annot j) ∧
          (∀ j, j ∈ l2 ↔
            2 ≤ quorumCount voteVocab (List.range voteVocab.words.length) sen.annot j) ∧
          (∀ j, j ∈ l3 ↔
            3 ≤ quorumCount voteVocab (List.range voteVocab.words.length) sen.annot j) ∧
          (∀ j, j ∈ l3 → j ∈ l2) ∧ (∀ j, j ∈ l2 → j ∈ l1) ∧
          (∀ j, j ∈ l1 ↔ ∃ ann ∈ List.range voteVocab.words.length,
            isGold voteVocab ann = false ∧ selectsB sen.annot ann j = true))
        voteData data' :=
  vote_synthesis_quorum_sets voteData voteVocab (by decide) (by decide)

/-- Counterexample to C10 as stated: when the annotator vocabulary already
contains an annotator literally named `min1` (here id 2), `add_votes`
overwrites that annotator's preexisting `annot` entry (from `[]` to `[7]`)
instead of only adding new entries, because `get_id("min1", allow_new=True)`
returns the existing id. -/
theorem add_votes_alias_overwrites :
    (add_votes aliasData aliasVocab).2 = none ∧
    ((add_votes aliasData aliasVocab).1.1.map (fun s => alistGet s.annot 2))
      = [some [7]] ∧
    (aliasData.map (fun s => alistGet s.annot 2)) = [some []] := by
  decide

theorem forall₂_imp_mem {α β : Type} {R S : α → β → Prop} :
    ∀ {l1 : List α} {l2 : List β}, List.Forall₂ R l1 l2 →
    (∀ a ∈ l1, ∀ b ∈ l2, R a b → S a b) → List.Forall₂ S l1 l2 := by
  intro l1 l2 h
  induction h with
  | nil =>
      intro _
      exact List.Forall₂.nil
  | cons hr _ ih =>
      intro hm
      exact List.Forall₂.cons
        (hm _ (List.mem_cons_self _ _) _ (List.mem_cons_self _ _) hr)
        (ih (fun a ha b hb => hm a (List.mem_cons_of_mem _ ha) b
          (List.mem_cons_of_mem _ hb)))

/-- C10 amended: provided the names min1, min2, min3 are not yet annotator
names, `add_votes` modifies each sentence record only by appending the
three `annot` entries for the freshly registered ids L, L+1, L+2 (L the
prior vocabulary size): id, text, `attr_stats` and every preexisting annot
entry are unchanged, and the quorum counts range only over the annotator
ids below L, so the synthetic annotators never contribute to their own
quorum counts. -/
theorem add_votes_frame (data : List SenRecord) (annV : Vocabulary)
    (hf1 : "min1" ∉ annV.words) (hf2 : "min2" ∉ annV.words)
    (hf3 : "min3" ∉ annV.words)
    (hent : ∀ sen ∈ data, ∀ ann, ann < annV.words.length →
      annV.get_word ann ≠ some "gold" → (alistGet sen.annot ann).isSome = true)
    (hnd : ∀ sen ∈ data, ∀ ann, ann < annV.words.length →
      ((alistGet sen.annot ann).getD []).Nodup)
    (hkb : ∀ sen ∈ data, ∀ p ∈ sen.annot, p.1 < annV.words.length) :
    ∃ data',
      add_votes data annV =
        ((data', ⟨annV.words ++ ["min1", "min2", "min3"]⟩), none) ∧
      List.Forall₂ (fun sen sen' =>
        sen'.id = sen.id ∧ sen'.text = sen.text ∧
        sen'.attr_stats = sen.attr_stats ∧
        (∀ j, j ≠ annV.words.length → j ≠ annV.words.length + 1 →
          j ≠ annV.words.length + 2 →
          alistGet sen'.annot j = alistGet sen.annot j) ∧
        sen'.annot.map Prod.fst =
          sen.annot.map Prod.fst ++
            [annV.words.length, annV.words.length + 1, annV.words.length + 2] ∧
        (∀ n mn, ((n, mn) = (1, annV.words.length) ∨
            (n, mn) = (2, annV.words.length + 1) ∨
            (n, mn) = (3, annV.words.length + 2)) →
          ∃ ln, alistGet sen'.annot mn = some ln ∧
            ∀ j, j ∈ ln ↔
              n ≤ quorumCount annV (List.range annV.words.length) sen.annot j))
        data data' := by
  have e1 : annV.getIdNew "min1" = (annV.words.length, ⟨annV.words ++ ["min1"]⟩) :=
    getIdNew_fresh hf1
  have hf2' : "min2" ∉ annV.words ++ ["min1"] := by
    intro h
    rcases List.mem_append.mp h with h | h
    · exact hf2 h
    · simp at h
  have e2 : (⟨annV.words ++ ["min1"]⟩ : Vocabulary).getIdNew "min2" =
      ((annV.words ++ ["min1"]).length, ⟨(annV.words ++ ["min1"]) ++ ["min2"]⟩) :=
    getIdNew_fresh hf2'
  have hf3' : "min3" ∉ (annV.words ++ ["min1"]) ++ ["min2"] := by
    intro h
    rcases List.mem_append.mp h with h | h
    · rcases List.mem_append.mp h with h | h
      · exact hf3 h
      · simp at h
    · simp at h
  have e3 : (⟨(annV.words ++ ["min1"]) ++ ["min2"]⟩ : Vocabulary).getIdNew "min3" =
      (((annV.words ++ ["min1"]) ++ ["min2"]).length,
        ⟨((annV.words ++ ["min1"]) ++ ["min2"]) ++ ["min3"]⟩) :=
    getIdNew_fresh hf3'
  obtain ⟨m1, m2, m3, v3, data', hav, hm1, hm2, hm3, hv3, _, _, _, _, _, _, _, hfa⟩ :=
    add_votes_spec data annV hent hnd
  have hm1' : m1 = annV.words.length := by rw [hm1, e1]
  have hm2' : m2 = annV.words.length + 1 := by
    rw [hm2, e1]
    simp only
    rw [e2]
    simp
  have hm3' : m3 = annV.words.length + 2 := by
    rw [hm3, e1]
    simp only
    rw [e2]
    simp only
    rw [e3]
    simp
  have hv3' : v3 = ⟨annV.words ++ ["min1", "min2", "min3"]⟩ := by
    rw [hv3, e1]
    simp only
    rw [e2]
    simp only
    rw [e3]
    simp
  subst hm1' hm2' hm3'
  refine ⟨data', by rw [← hv3']; exact hav, ?_⟩
  refine forall₂_imp_mem hfa ?_
  intro sen hs sen' _ hp
  obtain ⟨hid, htx, hst, hframe, hmins, hkeys⟩ := hp
  have hnotin : ∀ k, annV.words.length ≤ k → k ∉ sen.annot.map Prod.fst := by
    intro k hk hmem
    obtain ⟨p, hpmem, hpk⟩ := List.mem_map.mp hmem
    have := hkb sen hs p hpmem
    omega
  refine ⟨hid, htx, hst, hframe,
    hkeys (hnotin _ (by omega)) (hnotin _ (by omega)) (hnotin _ (by omega)), ?_⟩
  intro n mn hnm
  obtain ⟨ln, hln, _, _, hmem⟩ := hmins n mn hnm
  exact ⟨ln, hln, hmem⟩

/-- Witness for the amended C10 at a concrete input: fresh min1/min2/min3,
one sentence, gold plus two real annotators. -/
theorem add_votes_frame_witness :
    ∃ data',
      add_votes voteData voteVocab =
        ((data', ⟨voteVocab.words ++ ["min1", "min2", "min3"]⟩), none) ∧
      List.Forall₂ (fun sen sen' =>
        sen'.id = sen.id ∧ sen'.text = sen.text ∧
        sen'.attr_stats = sen.attr_stats ∧
        (∀ j, j ≠ voteVocab.words.length → j ≠ voteVocab.words.length + 1 →
          j ≠ voteVocab.words.length + 2 →
          alistGet sen'.annot j = alistGet sen.annot j) ∧
        sen'.annot.map Prod.fst =
          sen.annot.map Prod.fst ++
            [voteVocab.words.length, voteVocab.words.length + 1,
              voteVocab.words.length + 2] ∧
        (∀ n mn, ((n, mn) = (1, voteVocab.words.length) ∨
            (n, mn) = (2, voteVocab.words.length + 1) ∨
            (n, mn) = (3, voteVocab.words.length + 2)) →
          ∃ ln, alistGet sen'.annot mn = some ln ∧
            ∀ j, j ∈ ln ↔
              n ≤ quorumCount voteVocab (List.range voteVocab.words.length)
                sen.annot j))
        voteData data' :=
  add_votes_frame voteData voteVocab (by decide) (by decide) (by decide)
    (by decide) (by decide) (by decide)

theorem bumpStat_apply (s : GoldStats) (attr ann : Nat) (f : Fig)
    (a n : Nat) (g : Fig) :
    bumpStat s attr ann f a n g =
      s a n g + (if a = attr ∧ n = ann ∧ g = f then 1 else 0) := by
  unfold bumpStat
  by_cases h : a = attr ∧ n = ann ∧ g = f
  · simp [h]
  · simp [h]

theorem evalSen_inner1 (sen : SenRecord) (gold attr : Nat) :
    ∀ (annIds : List Nat) (st : GoldStats),
    annIds.Nodup →
    (∀ ann ∈ annIds, ann ≠ gold → (alistGet sen.annot ann).isSome = true) →
    ∃ st', (annIds.foldlM (fun st ann =>
        if ann = gold then pure st
        else
          match alistGet sen.annot ann with
          | none => Except.error (Err.keyError ann)
          | some attrs =>
              pure (bumpStat st attr ann
                (if attr ∈ attrs then Fig.TP else Fig.FN)))
        st : Except Err GoldStats) = Except.ok st' ∧
      ∀ a n f, st' a n f = st a n f +
        (if a = attr ∧ n ∈ annIds ∧ n ≠ gold ∧
            f = (if attr ∈ (alistGet sen.annot n).getD [] then Fig.TP else Fig.FN)
          then 1 else 0) := by
  intro annIds
  induction annIds with
  | nil =>
      intro st _ _
      exact ⟨st, rfl, fun a n f => by simp⟩
  | cons x rest ih =>
      intro st hnd hent
      obtain ⟨hx, hrest⟩ := List.nodup_cons.mp hnd
      by_cases hxg : x = gold
      · obtain ⟨st', hok, hval⟩ :=
          ih st hrest (fun ann hm => hent ann (List.mem_cons_of_mem _ hm))
        refine ⟨st', ?_, ?_⟩
        · rw [List.foldlM_cons, if_pos hxg]
          simpa using hok
        · intro a n f
          rw [hval a n f]
          congr 1
          by_cases hn : n ∈ rest
          · have : n ∈ x :: rest := List.mem_cons_of_mem _ hn
            by_cases hng : n ≠ gold ∧
                f = (if attr ∈ (alistGet sen.annot n).getD [] then Fig.TP else Fig.FN)
            · by_cases ha : a = attr
              · simp [ha, hn, this, hng.1, hng.2]
              · simp [ha]
            · rcases Classical.not_and_iff_or_not_not.mp hng with h | h
              · simp [h]
              · simp [h]
          · have hnx : n ∈ x :: rest → n = x := by
              intro hm
              rcases List.mem_cons.mp hm with h | h
              · exact h
              · exact absurd h hn
            by_cases hmem : n ∈ x :: rest
            · have : n = gold := (hnx hmem) ▸ hxg
              simp [hn, this]
            · simp [hn, hmem]
      · have hsome := hent x (List.mem_cons_self _ _) hxg
        cases hv : alistGet sen.annot x with
        | none => rw [hv] at hsome; simp at hsome
        | some attrs =>
            obtain ⟨st', hok, hval⟩ :=
              ih (bumpStat st attr x (if attr ∈ attrs then Fig.TP else Fig.FN))
                hrest (fun ann hm => hent ann (List.mem_cons_of_mem _ hm))
            refine ⟨st', ?_, ?_⟩
            · rw [List.foldlM_cons, if_neg hxg, hv]
              simpa using hok
            · intro a n f
              rw [hval a n f, bumpStat_apply]
              by_cases hn : n = x
              · subst hn
                have hnr : n ∉ rest := hx
                have hgd : (alistGet sen.annot n).getD [] = attrs := by
                  rw [hv]
                  rfl
                by_cases ha : a = attr
                · by_cases hf : f = (if attr ∈ attrs then Fig.TP else Fig.FN)
                  · simp [ha, hf, hnr, hxg, List.mem_cons, hgd]
                  · have hf2 : ¬ f = (if attr ∈ (alistGet sen.annot n).getD []
                        then Fig.TP else Fig.FN) := by
                      rw [hgd]
                      exact hf
                    simp [hf, hf2]
                · simp [ha]
              · have hmem : n ∈ x :: rest ↔ n ∈ rest := by
                  constructor
                  · intro hm
                    rcases List.mem_cons.mp hm with h | h
                    · exact absurd h hn
                    · exact h
                  · exact List.mem_cons_of_mem _
                simp [hn, hmem]

theorem evalSen_part1 (sen : SenRecord) (gold : Nat) (annIds : List Nat)
    (hnd : annIds.Nodup)
    (hent : ∀ ann ∈ annIds, ann ≠ gold → (alistGet sen.annot ann).isSome = true) :
    ∀ (goldAttrs : List Nat) (st : GoldStats), goldAttrs.Nodup →
    ∃ st', (goldAttrs.foldlM (fun st attr =>
        annIds.foldlM (fun st ann =>
          if ann = gold then pure st
          else
            match alistGet sen.annot ann with
            | none => Except.error (Err.keyError ann)
            | some attrs =>
                pure (bumpStat st attr ann
                  (if attr ∈ attrs then Fig.TP else Fig.FN)))
          st)
        st : Except Err GoldStats) = Except.ok st' ∧
      ∀ a n f, st' a n f = st a n f +
        (if a ∈ goldAttrs ∧ n ∈ annIds ∧ n ≠ gold ∧
            f = (if a ∈ (alistGet sen.annot n).getD [] then Fig.TP else Fig.FN)
          then 1 else 0) := by
  intro goldAttrs
  induction goldAttrs with
  | nil =>
      intro st _
      exact ⟨st, rfl, fun a n f => by simp⟩
  | cons x rest ih =>
      intro st hgnd
      obtain ⟨hx, hrest⟩ := List.nodup_cons.mp hgnd
      obtain ⟨st1, hok1, hval1⟩ := evalSen_inner1 sen gold x annIds st hnd hent
      obtain ⟨st', hok, hval⟩ := ih st1 hrest
      refine ⟨st', ?_, ?_⟩
      · rw [List.foldlM_cons, hok1]
        simpa using hok
      · intro a n f
        rw [hval a n f, hval1 a n f]
        by_cases ha : a = x
        · subst ha
          have har : a ∉ rest := hx
          rw [Nat.add_assoc]
          congr 1
          by_cases hc : n ∈ annIds ∧ n ≠ gold ∧
              f = (if a ∈ (alistGet sen.annot n).getD [] then Fig.TP else Fig.FN)
          · simp [har, hc, List.mem_cons]
          · simp [har, hc]
        · have hmem : a ∈ x :: rest ↔ a ∈ rest := by
            constructor
            · intro hm
              rcases List.mem_cons.mp hm with h | h
              · exact absurd h ha
              · exact h
            · exact List.mem_cons_of_mem _
          rw [Nat.add_assoc]
          congr 1
          simp only [ha, false_and, if_false, Nat.zero_add, hmem]

theorem fp_fold_apply (goldAttrs : List Nat) (ann : Nat) :
    ∀ (attrs : List Nat) (st : GoldStats) (a n : Nat) (f : Fig),
    (attrs.foldl (fun st attr =>
      if attr ∈ goldAttrs then st else bumpStat st attr ann Fig.FP) st) a n f =
      st a n f +
        (if n = ann ∧ f = Fig.FP ∧ a ∉ goldAttrs then attrs.count a else 0) := by
  intro attrs
  induction attrs with
  | nil =>
      intro st a n f
      simp
  | cons x rest ih =>
      intro st a n f
      rw [List.foldl_cons]
      by_cases hxg : x ∈ goldAttrs
      · rw [if_pos hxg, ih]
        congr 1
        by_cases hc : n = ann ∧ f = Fig.FP ∧ a ∉ goldAttrs
        · have hax : ¬ (x == a) = true := by
            intro hb
            rw [beq_iff_eq] at hb
            exact hc.2.2 (hb ▸ hxg)
          simp [hc, List.count_cons, hax]
        · simp [hc]
      · rw [if_neg hxg, ih, bumpStat_apply]
        by_cases hc : n = ann ∧ f = Fig.FP ∧ a ∉ goldAttrs
        · by_cases hax : a = x
          · subst hax
            simp [hc, List.count_cons, hc.1, hc.2.1]
            omega
          · have : ¬ (x == a) = true := by
              intro hb
              exact hax (beq_iff_eq.mp hb).symm
            simp [hc, List.count_cons, this, hax]
        · have h2 : ¬ (a = x ∧ n = ann ∧ f = Fig.FP) := by
            intro h
            by_cases hag : a ∈ goldAttrs
            · exact hxg (h.1 ▸ hag)
            · exact hc ⟨h.2.1, h.2.2, hag⟩
          simp [hc, h2]

theorem evalSen_part2 (sen : SenRecord) (gold : Nat) (goldAttrs : List Nat) :
    ∀ (annIds : List Nat) (st : GoldStats),
    annIds.Nodup →
    (∀ ann ∈ annIds, ann ≠ gold → (alistGet sen.annot ann).isSome = true) →
    ∃ st', (annIds.foldlM (fun st ann =>
        if ann = gold then pure st
        else
          match alistGet sen.annot ann with
          | none => Except.error (Err.valueError sen.id ann)
          | some attrs =>
              pure (attrs.foldl (fun st attr =>
                if attr ∈ goldAttrs then st else bumpStat st attr ann Fig.FP)
                st))
        st : Except Err GoldStats) = Except.ok st' ∧
      ∀ a n f, st' a n f = st a n f +
        (if n ∈ annIds ∧ n ≠ gold ∧ f = Fig.FP ∧ a ∉ goldAttrs
          then ((alistGet sen.annot n).getD []).count a else 0) := by
  intro annIds
  induction annIds with
  | nil =>
      intro st _ _
      exact ⟨st, rfl, fun a n f => by simp⟩
  | cons x rest ih =>
      intro st hnd hent
      obtain ⟨hx, hrest⟩ := List.nodup_cons.mp hnd
      by_cases hxg : x = gold
      · obtain ⟨st', hok, hval⟩ :=
          ih st hrest (fun ann hm => hent ann (List.mem_cons_of_mem _ hm))
        refine ⟨st', ?_, ?_⟩
        · rw [List.foldlM_cons, if_pos hxg]
          simpa using hok
        · intro a n f
          rw [hval a n f]
          congr 1
          by_cases hn : n ∈ rest
          · simp [hn, List.mem_cons_of_mem _ hn]
          · by_cases hmem : n ∈ x :: rest
            · have hnx : n = x := by
                rcases List.mem_cons.mp hmem with h | h
                · exact h
                · exact absurd h hn
              have : n = gold := hnx ▸ hxg
              simp [hn, this]
            · simp [hn, hmem]
      · have hsome := hent x (List.mem_cons_self _ _) hxg
        cases hv : alistGet sen.annot x with
        | none => rw [hv] at hsome; simp at hsome
        | some attrs =>
            obtain ⟨st', hok, hval⟩ :=
              ih (attrs.foldl (fun st attr =>
                if attr ∈ goldAttrs then st else bumpStat st attr x Fig.FP) st)
                hrest (fun ann hm => hent ann (List.mem_cons_of_mem _ hm))
            refine ⟨st', ?_, ?_⟩
            · rw [List.foldlM_cons, if_neg hxg, hv]
              simpa using hok
            · intro a n f
              rw [hval a n f, fp_fold_apply]
              by_cases hn : n = x
              · subst hn
                have hnr : n ∉ rest := hx
                have hgd : (alistGet sen.annot n).getD [] = attrs := by
                  rw [hv]
                  rfl
                rw [Nat.add_assoc]
                congr 1
                by_cases hc : f = Fig.FP ∧ a ∉ goldAttrs
                · simp [hnr, hc, hxg, hgd, List.mem_cons]
                · have h2 : ¬ (n = n ∧ f = Fig.FP ∧ a ∉ goldAttrs) := by
                    intro h
                    exact hc ⟨h.2.1, h.2.2⟩
                  have h3 : ¬ (n ∈ n :: rest ∧ n ≠ gold ∧ f = Fig.FP ∧
                      a ∉ goldAttrs) := by
                    intro h
                    exact hc ⟨h.2.2.1, h.2.2.2⟩
                  have hB : ¬ (n ∈ rest ∧ n ≠ gold ∧ f = Fig.FP ∧
                      a ∉ goldAttrs) := by
                    intro h
                    exact hc ⟨h.2.2.1, h.2.2.2⟩
                  rw [if_neg h2, if_neg hB, if_neg h3]
              · have hmem : n ∈ x :: rest ↔ n ∈ rest := by
                  constructor
                  · intro hm
                    rcases List.mem_cons.mp hm with h | h
                    · exact absurd h hn
                    · exact h
                  · exact List.mem_cons_of_mem _
                rw [Nat.add_assoc]
                congr 1
                have h2 : ¬ (n = x ∧ f = Fig.FP ∧ a ∉ goldAttrs) := by
                  intro h
                  exact hn h.1
                simp [h2, hmem]

theorem evalSen_spec (annIds : List Nat) (gold : Nat) (sen : SenRecord)
    (goldAttrs : List Nat) (hv : alistGet sen.annot gold = some goldAttrs)
    (hgnd : goldAttrs.Nodup) (hnd : annIds.Nodup)
    (hent : ∀ ann ∈ annIds, ann ≠ gold → (alistGet sen.annot ann).isSome = true)
    (hlnd : ∀ ann ∈ annIds, ((alistGet sen.annot ann).getD []).Nodup) :
    ∀ st, ∃ st', evalSen annIds gold st sen = Except.ok st' ∧
      ∀ a n, n ∈ annIds → n ≠ gold →
        (st' a n Fig.TP = st a n Fig.TP +
          (if a ∈ goldAttrs ∧ a ∈ (alistGet sen.annot n).getD []
            then 1 else 0)) ∧
        (st' a n Fig.FN = st a n Fig.FN +
          (if a ∈ goldAttrs ∧ a ∉ (alistGet sen.annot n).getD []
            then 1 else 0)) ∧
        (st' a n Fig.FP = st a n Fig.FP +
          (if a ∈ (alistGet sen.annot n).getD [] ∧ a ∉ goldAttrs
            then 1 else 0)) := by
  intro st
  obtain ⟨st1, hok1, hval1⟩ := evalSen_part1 sen gold annIds hnd hent goldAttrs st hgnd
  obtain ⟨st', hok2, hval2⟩ := evalSen_part2 sen gold goldAttrs annIds st1 hnd hent
  refine ⟨st', ?_, ?_⟩
  · unfold evalSen
    rw [hv]
    show (goldAttrs.foldlM _ st >>= fun stats => annIds.foldlM _ stats) = _
    rw [hok1]
    exact hok2
  · intro a n hni hng
    have hfig : ∀ f : Fig,
        (if a ∈ goldAttrs ∧ n ∈ annIds ∧ n ≠ gold ∧
            f = (if a ∈ (alistGet sen.annot n).getD [] then Fig.TP else Fig.FN)
          then (1 : Nat) else 0) =
        (if a ∈ goldAttrs ∧
            f = (if a ∈ (alistGet sen.annot n).getD [] then Fig.TP else Fig.FN)
          then 1 else 0) := by
      intro f
      by_cases hc : a ∈ goldAttrs ∧
          f = (if a ∈ (alistGet sen.annot n).getD [] then Fig.TP else Fig.FN)
      · simp [hc.1, hc.2, hni, hng]
      · have : ¬ (a ∈ goldAttrs ∧ n ∈ annIds ∧ n ≠ gold ∧
            f = (if a ∈ (alistGet sen.annot n).getD [] then Fig.TP else Fig.FN)) := by
          intro h
          exact hc ⟨h.1, h.2.2.2⟩
        simp only [this, hc, if_false]
    refine ⟨?_, ?_, ?_⟩
    · rw [hval2 a n Fig.TP, hval1 a n Fig.TP, hfig Fig.TP]
      have h0 : ¬ (n ∈ annIds ∧ n ≠ gold ∧ Fig.TP = Fig.FP ∧ a ∉ goldAttrs) := by
        intro h
        exact Fig.noConfusion h.2.2.1
      rw [if_neg h0]
      by_cases hm : a ∈ (alistGet sen.annot n).getD []
      · simp [hm]
      · have : ¬ (a ∈ goldAttrs ∧ Fig.TP =
            (if a ∈ (alistGet sen.annot n).getD [] then Fig.TP else Fig.FN)) := by
          intro h
          rw [if_neg hm] at h
          exact Fig.noConfusion h.2
        simp [this, hm]
    · rw [hval2 a n Fig.FN, hval1 a n Fig.FN, hfig Fig.FN]
      have h0 : ¬ (n ∈ annIds ∧ n ≠ gold ∧ Fig.FN = Fig.FP ∧ a ∉ goldAttrs) := by
        intro h
        exact Fig.noConfusion h.2.2.1
      rw [if_neg h0]
      by_cases hm : a ∈ (alistGet sen.annot n).getD []
      · have : ¬ (a ∈ goldAttrs ∧ Fig.FN =
            (if a ∈ (alistGet sen.annot n).getD [] then Fig.TP else Fig.FN)) := by
          intro h
          rw [if_pos hm] at h
          exact Fig.noConfusion h.2
        simp [this, hm]
      · simp [hm]
    · rw [hval2 a n Fig.FP, hval1 a n Fig.FP, hfig Fig.FP]
      have h1 : ¬ (a ∈ goldAttrs ∧ Fig.FP =
          (if a ∈ (alistGet sen.annot n).getD [] then Fig.TP else Fig.FN)) := by
        intro h
        by_cases hm : a ∈ (alistGet sen.annot n).getD []
        · rw [if_pos hm] at h
          exact Fig.noConfusion h.2
        · rw [if_neg hm] at h
          exact Fig.noConfusion h.2
      rw [if_neg h1, Nat.add_zero]
      by_cases hc : a ∈ (alistGet sen.annot n).getD [] ∧ a ∉ goldAttrs
      · have hcnt : ((alistGet sen.annot n).getD []).count a = 1 :=
          List.count_eq_one_of_mem (hlnd n hni) hc.1
        have : n ∈ annIds ∧ n ≠ gold ∧ Fig.FP = Fig.FP ∧ a ∉ goldAttrs :=
          ⟨hni, hng, rfl, hc.2⟩
        rw [if_pos this, if_pos hc, hcnt]
      · by_cases hg : a ∉ goldAttrs
        · have hm : a ∉ (alistGet sen.annot n).getD [] := by
            intro h
            exact hc ⟨h, hg⟩
          have hcnt : ((alistGet sen.annot n).getD []).count a = 0 := by
            rw [List.count_eq_zero]
            exact hm
          rw [if_neg hc]
          by_cases h2 : n ∈ annIds ∧ n ≠ gold ∧ Fig.FP = Fig.FP ∧ a ∉ goldAttrs
          · rw [if_pos h2, hcnt]
          · rw [if_neg h2]
        · have h2 : ¬ (n ∈ annIds ∧ n ≠ gold ∧ Fig.FP = Fig.FP ∧
              a ∉ goldAttrs) := by
            intro h
            exact hg h.2.2.2
          rw [if_neg h2, if_neg hc]

theorem selectsB_eq_mem (annot : List (Nat × List Nat)) (n a : Nat) :
    selectsB annot n a = true ↔ a ∈ (alistGet annot n).getD [] := by
  unfold selectsB
  cases hv : alistGet annot n with
  | none => simp
  | some l => simp [List.contains]

theorem filter_cons_length_true {α : Type} {p : α → Bool} {x : α}
    (rest : List α) (h : p x = true) :
    ((x :: rest).filter p).length = (rest.filter p).length + 1 := by
  simp [List.filter_cons, h]

theorem filter_cons_length_false {α : Type} {p : α → Bool} {x : α}
    (rest : List α) (h : p x = false) :
    ((x :: rest).filter p).length = (rest.filter p).length := by
  simp [List.filter_cons, h]

theorem eval_fold_spec (annIds : List Nat) (gold : Nat) (hnd : annIds.Nodup) :
    ∀ (data : List SenRecord) (st : GoldStats),
    (∀ sen ∈ data, (alistGet sen.annot gold).isSome = true) →
    (∀ sen ∈ data, ((alistGet sen.annot gold).getD []).Nodup) →
    (∀ sen ∈ data, ∀ ann ∈ annIds, ann ≠ gold →
      (alistGet sen.annot ann).isSome = true) →
    (∀ sen ∈ data, ∀ ann ∈ annIds, ((alistGet sen.annot ann).getD []).Nodup) →
    ∃ S, (data.foldlM (evalSen annIds gold) st) = Except.ok S ∧
      ∀ a n, n ∈ annIds → n ≠ gold →
        S a n Fig.TP = st a n Fig.TP + (data.filter (fun sen =>
          selectsB sen.annot gold a && selectsB sen.annot n a)).length ∧
        S a n Fig.FN = st a n Fig.FN + (data.filter (fun sen =>
          selectsB sen.annot gold a && !selectsB sen.annot n a)).length ∧
        S a n Fig.FP = st a n Fig.FP + (data.filter (fun sen =>
          selectsB sen.annot n a && !selectsB sen.annot gold a)).length := by
  intro data
  induction data with
  | nil =>
      intro st _ _ _ _
      exact ⟨st, rfl, fun a n _ _ => by simp⟩
  | cons sen rest ih =>
      intro st hg hgnd hent hlnd
      obtain ⟨gl, hgl⟩ := Option.isSome_iff_exists.mp
        (hg sen (List.mem_cons_self _ _))
      have hglD : (alistGet sen.annot gold).getD [] = gl := by
        rw [hgl]
        rfl
      obtain ⟨st1, hok1, hval1⟩ := evalSen_spec annIds gold sen gl hgl
        (hglD ▸ hgnd sen (List.mem_cons_self _ _)) hnd
        (fun ann hm hng => hent sen (List.mem_cons_self _ _) ann hm hng)
        (fun ann hm => hlnd sen (List.mem_cons_self _ _) ann hm) st
      obtain ⟨S, hokS, hvalS⟩ := ih st1
        (fun s hs => hg s (List.mem_cons_of_mem _ hs))
        (fun s hs => hgnd s (List.mem_cons_of_mem _ hs))
        (fun s hs => hent s (List.mem_cons_of_mem _ hs))
        (fun s hs => hlnd s (List.mem_cons_of_mem _ hs))
      refine ⟨S, ?_, ?_⟩
      · rw [List.foldlM_cons, hok1]
        simpa using hokS
      · intro a n hni hng
        obtain ⟨hTP, hFN, hFP⟩ := hval1 a n hni hng
        obtain ⟨hTPS, hFNS, hFPS⟩ := hvalS a n hni hng
        have hselg : selectsB sen.annot gold a = true ↔ a ∈ gl := by
          rw [selectsB_eq_mem, hglD]
        have hseln : selectsB sen.annot n a = true ↔
            a ∈ (alistGet sen.annot n).getD [] :=
          selectsB_eq_mem sen.annot n a
        refine ⟨?_, ?_, ?_⟩
        · rw [hTPS, hTP]
          by_cases hc : a ∈ gl ∧ a ∈ (alistGet sen.annot n).getD []
          · have hb : (fun s : SenRecord =>
                selectsB s.annot gold a && selectsB s.annot n a) sen = true := by
              dsimp only
              rw [Bool.and_eq_true, hselg, hseln]
              exact hc
            rw [if_pos hc, filter_cons_length_true rest hb]
            omega
          · have hb : (fun s : SenRecord =>
                selectsB s.annot gold a && selectsB s.annot n a) sen = false := by
              dsimp only
              rcases Bool.eq_false_or_eq_true
                  (selectsB sen.annot gold a && selectsB sen.annot n a) with h | h
              · exfalso
                rw [Bool.and_eq_true] at h
                exact hc ⟨hselg.mp h.1, hseln.mp h.2⟩
              · exact h
            rw [if_neg hc, filter_cons_length_false rest hb]
            omega
        · rw [hFNS, hFN]
          by_cases hc : a ∈ gl ∧ a ∉ (alistGet sen.annot n).getD []
          · have hb : (fun s : SenRecord =>
                selectsB s.annot gold a && !selectsB s.annot n a) sen = true := by
              dsimp only
              rw [Bool.and_eq_true, hselg, Bool.not_eq_true']
              refine ⟨hc.1, ?_⟩
              rcases Bool.eq_false_or_eq_true (selectsB sen.annot n a) with h | h
              · exact absurd (hseln.mp h) hc.2
              · exact h
            rw [if_pos hc, filter_cons_length_true rest hb]
            omega
          · have hb : (fun s : SenRecord =>
                selectsB s.annot gold a && !selectsB s.annot n a) sen = false := by
              dsimp only
              rcases Bool.eq_false_or_eq_true
                  (selectsB sen.annot gold a && !selectsB sen.annot n a) with h | h
              · exfalso
                rw [Bool.and_eq_true, Bool.not_eq_true'] at h
                refine hc ⟨hselg.mp h.1, fun hm => ?_⟩
                rw [← hseln] at hm
                rw [hm] at h
                exact Bool.noConfusion h.2
              · exact h
            rw [if_neg hc, filter_cons_length_false rest hb]
            omega
        · rw [hFPS, hFP]
          by_cases hc : a ∈ (alistGet sen.annot n).getD [] ∧ a ∉ gl
          · have hb : (fun s : SenRecord =>
                selectsB s.annot n a && !selectsB s.annot gold a) sen = true := by
              dsimp only
              rw [Bool.and_eq_true, hseln, Bool.not_eq_true']
              refine ⟨hc.1, ?_⟩
              rcases Bool.eq_false_or_eq_true (selectsB sen.annot gold a) with h | h
              · exact absurd (hselg.mp h) hc.2
              · exact h
            rw [if_pos hc, filter_cons_length_true rest hb]
            omega
          · have hb : (fun s : SenRecord =>
                selectsB s.annot n a && !selectsB s.annot gold a) sen = false := by
              dsimp only
              rcases Bool.eq_false_or_eq_true
                  (selectsB sen.annot n a && !selectsB sen.annot gold a) with h | h
              · exfalso
                rw [Bool.and_eq_true, Bool.not_eq_true'] at h
                refine hc ⟨hseln.mp h.1, fun hm => ?_⟩
                rw [← hselg] at hm
                rw [hm] at h
                exact Bool.noConfusion h.2
              · exact h
            rw [if_neg hc, filter_cons_length_false rest hb]
            omega

/-- C2: in the gold evaluator, for every sentence and every attribute the
gold annotator selected, each non-gold annotator's TP count for that
attribute is incremented when the annotator also selected it and its FN
count otherwise, and every attribute in a non-gold annotator's set outside
gold's set increments that annotator's FP count: the final counts are the
numbers of sentences realizing each of the three configurations. -/
theorem gold_eval_counts (data : List SenRecord) (annV : Vocabulary) (g : Nat)
    (hgold : annV.get_id "gold" = some g)
    (hg : ∀ sen ∈ data, (alistGet sen.annot g).isSome = true)
    (hgnd : ∀ sen ∈ data, ((alistGet sen.annot g).getD []).Nodup)
    (hent : ∀ sen ∈ data, ∀ ann, ann < annV.words.length → ann ≠ g →
      (alistGet sen.annot ann).isSome = true)
    (hlnd : ∀ sen ∈ data, ∀ ann, ann < annV.words.length →
      ((alistGet sen.annot ann).getD []).Nodup) :
    ∃ S, eval_against_gold data annV = Except.ok S ∧
      ∀ a n, n < annV.words.length → n ≠ g →
        S a n Fig.TP = (data.filter (fun sen =>
          selectsB sen.annot g a && selectsB sen.annot n a)).length ∧
        S a n Fig.FN = (data.filter (fun sen =>
          selectsB sen.annot g a && !selectsB sen.annot n a)).length ∧
        S a n Fig.FP = (data.filter (fun sen =>
          selectsB sen.annot n a && !selectsB sen.annot g a)).length := by
  unfold eval_against_gold
  rw [hgold]
  obtain ⟨S, hok, hval⟩ := eval_fold_spec (List.range annV.words.length) g
    (List.nodup_range _) data (fun _ _ _ => 0) hg hgnd
    (fun sen hs ann hm hng => hent sen hs ann (List.mem_range.mp hm) hng)
    (fun sen hs ann hm => hlnd sen hs ann (List.mem_range.mp hm))
  refine ⟨S, hok, fun a n hn hng => ?_⟩
  obtain ⟨hTP, hFN, hFP⟩ := hval a n (List.mem_range.mpr hn) hng
  exact ⟨by simpa using hTP, by simpa using hFN, by simpa using hFP⟩

/-- Witness for C2 at the concrete two-sentence example: gold picks
attribute 0, annotator 1 picks attribute 0, annotator 2 picks attribute 1
on each sentence; annotator 1 gets TP for attribute 0 and no FN/FP, and
annotator 2 gets FN for attribute 0 and FP for attribute 1. -/
theorem gold_eval_counts_witness :
    ∃ S, eval_against_gold goldExampleData goldExampleVocab = Except.ok S ∧
      S 0 1 Fig.TP = 2 ∧ S 0 1 Fig.FN = 0 ∧ S 0 1 Fig.FP = 0 ∧
      S 0 2 Fig.TP = 0 ∧ S 0 2 Fig.FN = 2 ∧ S 1 2 Fig.FP = 2 := by
  obtain ⟨S, hok, hval⟩ := gold_eval_counts goldExampleData goldExampleVocab 0
    (by decide) (by decide) (by decide) (by decide) (by decide)
  refine ⟨S, hok, ?_⟩
  obtain ⟨h1, h2, h3⟩ := hval 0 1 (by decide) (by decide)
  obtain ⟨h4, h5, _⟩ := hval 0 2 (by decide) (by decide)
  obtain ⟨_, _, h6⟩ := hval 1 2 (by decide) (by decide)
  rw [h1, h2, h3, h4, h5, h6]
  refine ⟨?_, ?_, ?_, ?_, ?_, ?_⟩ <;> decide

/-- C3: for every attribute and every annotator pair whose two binary
presence vectors are all-zero, the reported kappa is exactly 1, regardless
of what the external statistic would return; consequently, when an
attribute's ratings are all-zero, every kappa the engine collects for it
(in both the gold and the inter-annotator group) equals 1. -/
theorem kappa_all_zero_pair :
    (∀ (ext : List Nat → List Nat → ℚ) (v1 v2 : List Nat),
      (∀ x ∈ v1, x = 0) → (∀ x ∈ v2, x = 0) → pairKappa ext v1 v2 = 1) ∧
    (∀ (ext : List Nat → List Nat → ℚ) (r : Ratings) (numSens : Nat)
      (anns : List (Nat × String)) (attr : Nat),
      (∀ ann i, r attr ann i = 0) →
      (∀ k ∈ (kappaLists ext r numSens anns attr).1, k = 1) ∧
      (∀ k ∈ (kappaLists ext r numSens anns attr).2, k = 1)) := by
  have hpair : ∀ (ext : List Nat → List Nat → ℚ) (v1 v2 : List Nat),
      (∀ x ∈ v1, x = 0) → (∀ x ∈ v2, x = 0) → pairKappa ext v1 v2 = 1 := by
    intro ext v1 v2 h1 h2
    unfold pairKappa
    rw [if_pos]
    constructor
    · rw [List.all_eq_true]
      intro x hx
      simpa using h1 x hx
    · rw [List.all_eq_true]
      intro x hx
      simpa using h2 x hx
  refine ⟨hpair, ?_⟩
  intro ext r numSens anns attr hz
  have hvec : ∀ ann, ∀ x ∈ vecOf r numSens attr ann, x = 0 := by
    intro ann x hx
    obtain ⟨i, _, hi⟩ := List.mem_map.mp hx
    rw [← hi, hz]
  have hkap : ∀ a1 a2, pairKappa ext (vecOf r numSens attr a1)
      (vecOf r numSens attr a2) = 1 :=
    fun a1 a2 => hpair ext _ _ (hvec a1) (hvec a2)
  suffices h : ∀ (l : List (Nat × String)) (acc : List ℚ × List ℚ),
      (∀ k ∈ acc.1, k = 1) → (∀ k ∈ acc.2, k = 1) →
      (∀ k ∈ (l.foldl (fun acc p1 =>
        anns.foldl (fun acc p2 =>
          if p2.1 ≤ p1.1 then acc
          else
            let k := pairKappa ext (vecOf r numSens attr p1.1)
              (vecOf r numSens attr p2.1)
            if p1.2 = "gold" ∨ p2.2 = "gold" then (acc.1 ++ [k], acc.2)
            else (acc.1, acc.2 ++ [k]))
          acc)
        acc).1, k = 1) ∧
      (∀ k ∈ (l.foldl (fun acc p1 =>
        anns.foldl (fun acc p2 =>
          if p2.1 ≤ p1.1 then acc
          else
            let k := pairKappa ext (vecOf r numSens attr p1.1)
              (vecOf r numSens attr p2.1)
            if p1.2 = "gold" ∨ p2.2 = "gold" then (acc.1 ++ [k], acc.2)
            else (acc.1, acc.2 ++ [k]))
          acc)
        acc).2, k = 1) by
    exact h anns ([], []) (by simp) (by simp)
  intro l
  induction l with
  | nil =>
      intro acc h1 h2
      exact ⟨h1, h2⟩
  | cons p1 rest ih =>
      intro acc h1 h2
      rw [List.foldl_cons]
      apply ih
      all_goals {
        suffices hinner : ∀ (l2 : List (Nat × String)) (acc : List ℚ × List ℚ),
            (∀ k ∈ acc.1, k = 1) → (∀ k ∈ acc.2, k = 1) →
            (∀ k ∈ (l2.foldl (fun acc p2 =>
              if p2.1 ≤ p1.1 then acc
              else
                let k := pairKappa ext (vecOf r numSens attr p1.1)
                  (vecOf r numSens attr p2.1)
                if p1.2 = "gold" ∨ p2.2 = "gold" then (acc.1 ++ [k], acc.2)
                else (acc.1, acc.2 ++ [k]))
              acc).1, k = 1) ∧
            (∀ k ∈ (l2.foldl (fun acc p2 =>
              if p2.1 ≤ p1.1 then acc
              else
                let k := pairKappa ext (vecOf r numSens attr p1.1)
                  (vecOf r numSens attr p2.1)
                if p1.2 = "gold" ∨ p2.2 = "gold" then (acc.1 ++ [k], acc.2)
                else (acc.1, acc.2 ++ [k]))
              acc).2, k = 1) by
          first
          | exact (hinner anns acc h1 h2).1
          | exact (hinner anns acc h1 h2).2
        intro l2
        induction l2 with
        | nil =>
            intro acc h1 h2
            exact ⟨h1, h2⟩
        | cons p2 rest2 ih2 =>
            intro acc h1 h2
            rw [List.foldl_cons]
            by_cases hle : p2.1 ≤ p1.1
            · rw [if_pos hle]
              exact ih2 acc h1 h2
            · rw [if_neg hle]
              by_cases hgold : p1.2 = "gold" ∨ p2.2 = "gold"
              · simp only [hgold, if_true]
                apply ih2
                · intro k hk
                  rcases List.mem_append.mp hk with h | h
                  · exact h1 k h
                  · rw [List.mem_singleton.mp h]
                    exact hkap p1.1 p2.1
                · exact h2
              · simp only [hgold, if_false]
                apply ih2
                · exact h1
                · intro k hk
                  rcases List.mem_append.mp hk with h | h
                  · exact h2 k h
                  · rw [List.mem_singleton.mp h]
                    exact hkap p1.1 p2.1
      }

/-- Witness for C3: with the zero external statistic stand-in and all-zero
ratings, the engine-reported kappas all equal 1. -/
theorem kappa_all_zero_pair_witness :
    pairKappa extZero [0, 0] [0, 0] = 1 ∧
    (∀ k ∈ (kappaLists extZero (fun _ _ _ => 0) 2
      [(0, "gold"), (1, "a"), (2, "b")] 0).2, k = 1) :=
  ⟨kappa_all_zero_pair.1 extZero [0, 0] [0, 0] (by decide) (by decide),
    (kappa_all_zero_pair.2 extZero (fun _ _ _ => 0) 2
      [(0, "gold"), (1, "a"), (2, "b")] 0 (fun _ _ => rfl)).2⟩

theorem kappaLists_singleton (ext : List Nat → List Nat → ℚ) (r : Ratings)
    (numSens : Nat) (a : Nat) (nm : String) (attr : Nat) :
    kappaLists ext r numSens [(a, nm)] attr = ([], []) := by
  unfold kappaLists
  simp

/-- Counterexample to C4 as stated: on a single-annotator run the
inter-annotator kappa group is empty and the engine's unguarded
`sum(attr_kappas) / len(attr_kappas)` raises `ZeroDivisionError` instead
of completing. -/
theorem single_annotator_zero_division :
    measure_agreement extZero [(0, "a")] 1 [⟨"s1", "t", [(0, [0])], []⟩]
      = Except.error Err.zeroDivision := by
  rfl

/-- C4 amended: for every attribute the engine reports the arithmetic
average of each kappa group, with the gold group's average defined as 0
when no gold-involving pairs exist; however, when no inter-annotator pairs
exist (a single-annotator run in particular), the unguarded division
raises `ZeroDivisionError` instead of completing. -/
theorem agreement_averages :
    (∀ (ext : List Nat → List Nat → ℚ) (r : Ratings) (numSens : Nat)
      (anns : List (Nat × String)) (attr : Nat),
      ((kappaLists ext r numSens anns attr).2.length = 0 →
        attrAvgs ext r numSens anns attr = Except.error Err.zeroDivision) ∧
      ((kappaLists ext r numSens anns attr).2.length ≠ 0 →
        attrAvgs ext r numSens anns attr = Except.ok
          ((if (kappaLists ext r numSens anns attr).1.isEmpty then 0
            else listSum (kappaLists ext r numSens anns attr).1 /
              ((kappaLists ext r numSens anns attr).1.length : ℚ)),
            listSum (kappaLists ext r numSens anns attr).2 /
              ((kappaLists ext r numSens anns attr).2.length : ℚ)))) ∧
    (∀ (ext : List Nat → List Nat → ℚ) (a : Nat) (nm : String)
      (attrLen : Nat) (data : List SenRecord) (r : Ratings),
      buildRatings 1 data = Except.ok r → 0 < attrLen →
      measure_agreement ext [(a, nm)] attrLen data
        = Except.error Err.zeroDivision) := by
  have hpart1 : ∀ (ext : List Nat → List Nat → ℚ) (r : Ratings) (numSens : Nat)
      (anns : List (Nat × String)) (attr : Nat),
      ((kappaLists ext r numSens anns attr).2.length = 0 →
        attrAvgs ext r numSens anns attr = Except.error Err.zeroDivision) ∧
      ((kappaLists ext r numSens anns attr).2.length ≠ 0 →
        attrAvgs ext r numSens anns attr = Except.ok
          ((if (kappaLists ext r numSens anns attr).1.isEmpty then 0
            else listSum (kappaLists ext r numSens anns attr).1 /
              ((kappaLists ext r numSens anns attr).1.length : ℚ)),
            listSum (kappaLists ext r numSens anns attr).2 /
              ((kappaLists ext r numSens anns attr).2.length : ℚ))) := by
    intro ext r numSens anns attr
    constructor
    · intro h
      simp only [attrAvgs]
      rw [if_pos h]
    · intro h
      simp only [attrAvgs]
      rw [if_neg h]
  refine ⟨hpart1, ?_⟩
  intro ext a nm attrLen data r hr hpos
  obtain ⟨k, rfl⟩ : ∃ k, attrLen = k + 1 := ⟨attrLen - 1, by omega⟩
  unfold measure_agreement
  rw [show ([(a, nm)] : List (Nat × String)).length = 1 from rfl, hr]
  show (List.range (k + 1)).mapM (attrAvgs ext r data.length [(a, nm)])
    = Except.error Err.zeroDivision
  rw [List.range_succ_eq_map]
  have h0 : attrAvgs ext r data.length [(a, nm)] 0 = Except.error Err.zeroDivision := by
    apply (hpart1 ext r data.length [(a, nm)] 0).1
    rw [kappaLists_singleton]
    rfl
  rw [List.mapM_cons, h0]
  rfl

/-- Witness for the amended C4: the empty inter-annotator group raises the
division error, both at the level of one attribute's averages and through
`measure_agreement` on a concrete single-annotator run. -/
theorem agreement_averages_witness :
    attrAvgs extZero (fun _ _ _ => 0) 1 [(0, "a")] 0
      = Except.error Err.zeroDivision ∧
    measure_agreement extZero [(0, "a")] 1 [⟨"s1", "t", [(0, [0])], []⟩]
      = Except.error Err.zeroDivision :=
  ⟨(agreement_averages.1 extZero (fun _ _ _ => 0) 1 [(0, "a")] 0).1 rfl,
    agreement_averages.2 extZero 0 "a" 1 [⟨"s1", "t", [(0, [0])], []⟩]
      (ratingsSet (fun _ _ _ => 0) 0 0 0) rfl (by decide)⟩

theorem ratings_inner_error (sen : SenRecord) (i : Nat) :
    ∀ (ids : List Nat) (r : Ratings),
    (∃ ann ∈ ids, alistGet sen.annot ann = none) →
    ∃ a, (ids.foldlM (fun r ann =>
        match alistGet sen.annot ann with
        | none => Except.error (Err.valueError sen.id ann)
        | some attrs =>
            pure (attrs.foldl (fun r attr => ratingsSet r attr ann i) r))
        r : Except Err Ratings) = Except.error (Err.valueError sen.id a) ∧
      a ∈ ids ∧ alistGet sen.annot a = none := by
  intro ids
  induction ids with
  | nil =>
      intro r h
      simp at h
  | cons x rest ih =>
      intro r h
      cases hv : alistGet sen.annot x with
      | none =>
          refine ⟨x, ?_, List.mem_cons_self _ _, hv⟩
          rw [List.foldlM_cons, hv]
          rfl
      | some attrs =>
          obtain ⟨ann, hann, hnone⟩ := h
          have hann' : ann ∈ rest := by
            rcases List.mem_cons.mp hann with h1 | h1
            · rw [h1, hv] at hnone
              exact Option.noConfusion hnone
            · exact h1
          obtain ⟨a, hok, ha, hna⟩ :=
            ih (attrs.foldl (fun r attr => ratingsSet r attr x i) r) ⟨ann, hann', hnone⟩
          refine ⟨a, ?_, List.mem_cons_of_mem _ ha, hna⟩
          rw [List.foldlM_cons, hv]
          simpa using hok

theorem ratings_inner_ok (sen : SenRecord) (i : Nat) :
    ∀ (ids : List Nat) (r : Ratings),
    (∀ ann ∈ ids, (alistGet sen.annot ann).isSome = true) →
    ∃ r', (ids.foldlM (fun r ann =>
        match alistGet sen.annot ann with
        | none => Except.error (Err.valueError sen.id ann)
        | some attrs =>
            pure (attrs.foldl (fun r attr => ratingsSet r attr ann i) r))
        r : Except Err Ratings) = Except.ok r' := by
  intro ids
  induction ids with
  | nil =>
      intro r _
      exact ⟨r, rfl⟩
  | cons x rest ih =>
      intro r h
      have hx := h x (List.mem_cons_self _ _)
      cases hv : alistGet sen.annot x with
      | none => rw [hv] at hx; simp at hx
      | some attrs =>
          obtain ⟨r', hok⟩ := ih (attrs.foldl (fun r attr => ratingsSet r attr x i) r)
            (fun ann hm => h ann (List.mem_cons_of_mem _ hm))
          refine ⟨r', ?_⟩
          rw [List.foldlM_cons, hv]
          simpa using hok

theorem buildRatings_missing (numAnns : Nat) (data : List SenRecord)
    (h : ∃ sen ∈ data, ∃ ann, ann < numAnns ∧ alistGet sen.annot ann = none) :
    ∃ s a, buildRatings numAnns data = Except.error (Err.valueError s a) ∧
      ∃ sen ∈ data, sen.id = s ∧ a < numAnns ∧ alistGet sen.annot a = none := by
  suffices haux : ∀ (l : List (Nat × SenRecord)) (r : Ratings),
      (∃ p ∈ l, ∃ ann, ann < numAnns ∧ alistGet p.2.annot ann = none) →
      ∃ s a, (l.foldlM (fun r p =>
          (List.range numAnns).foldlM (fun r ann =>
            match alistGet p.2.annot ann with
            | none => Except.error (Err.valueError p.2.id ann)
            | some attrs =>
                pure (attrs.foldl (fun r attr => ratingsSet r attr ann p.1) r))
            r)
          r : Except Err Ratings) = Except.error (Err.valueError s a) ∧
        ∃ p ∈ l, p.2.id = s ∧ a < numAnns ∧ alistGet p.2.annot a = none by
    obtain ⟨sen, hsen, ann, hlt, hnone⟩ := h
    have hsen' : ∃ p ∈ data.enum, p.2 = sen := by
      have : sen ∈ data.enum.map Prod.snd := by
        rw [List.enum_map_snd]
        exact hsen
      obtain ⟨p, hp, hps⟩ := List.mem_map.mp this
      exact ⟨p, hp, hps⟩
    obtain ⟨p, hp, hps⟩ := hsen'
    obtain ⟨s, a, hok, p', hp', hid, hlt', hnone'⟩ :=
      haux data.enum (fun _ _ _ => 0) ⟨p, hp, ann, hlt, hps ▸ hnone⟩
    refine ⟨s, a, hok, p'.2, ?_, hid, hlt', hnone'⟩
    rw [← List.enum_map_snd data]
    exact List.mem_map_of_mem Prod.snd hp'
  intro l
  induction l with
  | nil =>
      intro r h
      simp at h
  | cons p rest ih =>
      intro r h
      by_cases hmiss : ∃ ann, ann < numAnns ∧ alistGet p.2.annot ann = none
      · obtain ⟨ann, hlt, hnone⟩ := hmiss
        obtain ⟨a, herr, ha, hna⟩ := ratings_inner_error p.2 p.1 (List.range numAnns) r
          ⟨ann, List.mem_range.mpr hlt, hnone⟩
        refine ⟨p.2.id, a, ?_, p, List.mem_cons_self _ _, rfl,
          List.mem_range.mp ha, hna⟩
        rw [List.foldlM_cons, herr]
        rfl
      · have hall : ∀ ann ∈ List.range numAnns,
            (alistGet p.2.annot ann).isSome = true := by
          intro ann hm
          cases hv : alistGet p.2.annot ann with
          | none =>
              exact absurd ⟨ann, List.mem_range.mp hm, hv⟩ hmiss
          | some _ => rfl
        obtain ⟨r', hok⟩ := ratings_inner_ok p.2 p.1 (List.range numAnns) r hall
        obtain ⟨q, hq, ann, hlt, hnone⟩ := h
        have hq' : q ∈ rest := by
          rcases List.mem_cons.mp hq with h1 | h1
          · exfalso
            exact hmiss ⟨ann, hlt, h1 ▸ hnone⟩
          · exact h1
        obtain ⟨s, a, herr, p', hp', hrest⟩ := ih r' ⟨q, hq', ann, hlt, hnone⟩
        refine ⟨s, a, ?_, p', List.mem_cons_of_mem _ hp', hrest⟩
        rw [List.foldlM_cons, hok]
        simpa using herr

theorem fold2_ok_entries (sen : SenRecord) (gold : Nat)
    (goldAttrs : List Nat) :
    ∀ (ids : List Nat) (st : GoldStats) (st' : GoldStats),
    (ids.foldlM (fun st ann =>
        if ann = gold then pure st
        else
          match alistGet sen.annot ann with
          | none => Except.error (Err.valueError sen.id ann)
          | some attrs =>
              pure (attrs.foldl (fun st attr =>
                if attr ∈ goldAttrs then st else bumpStat st attr ann Fig.FP)
                st))
        st : Except Err GoldStats) = Except.ok st' →
    ∀ ann ∈ ids, ann ≠ gold → (alistGet sen.annot ann).isSome = true := by
  intro ids
  induction ids with
  | nil =>
      intro st st' _ ann hm
      simp at hm
  | cons x rest ih =>
      intro st st' hok ann hm hng
      rw [List.foldlM_cons] at hok
      by_cases hxg : x = gold
      · rw [if_pos hxg] at hok
        rcases List.mem_cons.mp hm with h1 | h1
        · exact absurd (h1.trans hxg) hng
        · exact ih st st' (by simpa using hok) ann h1 hng
      · rw [if_neg hxg] at hok
        cases hv : alistGet sen.annot x with
        | none =>
            rw [hv] at hok
            exact Except.noConfusion hok
        | some attrs =>
            rw [hv] at hok
            rcases List.mem_cons.mp hm with h1 | h1
            · rw [h1, hv]
              rfl
            · exact ih _ st' (by simpa using hok) ann h1 hng

theorem fold2_missing_error (sen : SenRecord) (gold : Nat)
    (goldAttrs : List Nat) :
    ∀ (ids : List Nat) (st : GoldStats),
    (∃ ann ∈ ids, ann ≠ gold ∧ alistGet sen.annot ann = none) →
    ∃ a, (ids.foldlM (fun st ann =>
        if ann = gold then pure st
        else
          match alistGet sen.annot ann with
          | none => Except.error (Err.valueError sen.id ann)
          | some attrs =>
              pure (attrs.foldl (fun st attr =>
                if attr ∈ goldAttrs then st else bumpStat st attr ann Fig.FP)
                st))
        st : Except Err GoldStats) = Except.error (Err.valueError sen.id a) ∧
      a ∈ ids ∧ alistGet sen.annot a = none := by
  intro ids
  induction ids with
  | nil =>
      intro st h
      simp at h
  | cons x rest ih =>
      intro st h
      by_cases hxg : x = gold
      · obtain ⟨ann, hm, hng, hnone⟩ := h
        have hm' : ann ∈ rest := by
          rcases List.mem_cons.mp hm with h1 | h1
          · exact absurd (h1.trans hxg) hng
          · exact h1
        obtain ⟨a, herr, ha, hna⟩ := ih st ⟨ann, hm', hng, hnone⟩
        refine ⟨a, ?_, List.mem_cons_of_mem _ ha, hna⟩
        rw [List.foldlM_cons, if_pos hxg]
        simpa using herr
      · cases hv : alistGet sen.annot x with
        | none =>
            refine ⟨x, ?_, List.mem_cons_self _ _, hv⟩
            rw [List.foldlM_cons, if_neg hxg, hv]
            rfl
        | some attrs =>
            obtain ⟨ann, hm, hng, hnone⟩ := h
            have hm' : ann ∈ rest := by
              rcases List.mem_cons.mp hm with h1 | h1
              · rw [h1, hv] at hnone
                exact Option.noConfusion hnone
              · exact h1
            obtain ⟨a, herr, ha, hna⟩ := ih _ ⟨ann, hm', hng, hnone⟩
            refine ⟨a, ?_, List.mem_cons_of_mem _ ha, hna⟩
            rw [List.foldlM_cons, if_neg hxg, hv]
            simpa using herr

theorem fold2_ok_exists (sen : SenRecord) (gold : Nat) (goldAttrs : List Nat) :
    ∀ (ids : List Nat) (st : GoldStats),
    (∀ ann ∈ ids, ann ≠ gold → (alistGet sen.annot ann).isSome = true) →
    ∃ st', (ids.foldlM (fun st ann =>
        if ann = gold then pure st
        else
          match alistGet sen.annot ann with
          | none => Except.error (Err.valueError sen.id ann)
          | some attrs =>
              pure (attrs.foldl (fun st attr =>
                if attr ∈ goldAttrs then st else bumpStat st attr ann Fig.FP)
                st))
        st : Except Err GoldStats) = Except.ok st' := by
  intro ids
  induction ids with
  | nil =>
      intro st _
      exact ⟨st, rfl⟩
  | cons x rest ih =>
      intro st h
      by_cases hxg : x = gold
      · obtain ⟨st', hok⟩ := ih st (fun ann hm => h ann (List.mem_cons_of_mem _ hm))
        refine ⟨st', ?_⟩
        rw [List.foldlM_cons, if_pos hxg]
        simpa using hok
      · have hx := h x (List.mem_cons_self _ _) hxg
        cases hv : alistGet sen.annot x with
        | none => rw [hv] at hx; simp at hx
        | some attrs =>
            obtain ⟨st', hok⟩ := ih _ (fun ann hm => h ann (List.mem_cons_of_mem _ hm))
            refine ⟨st', ?_⟩
            rw [List.foldlM_cons, if_neg hxg, hv]
            simpa using hok

theorem evalSen_ok_entries {ids : List Nat} {gold : Nat} {st st' : GoldStats}
    {sen : SenRecord} (hok : evalSen ids gold st sen = Except.ok st') :
    (alistGet sen.annot gold).isSome = true ∧
    ∀ ann ∈ ids, ann ≠ gold → (alistGet sen.annot ann).isSome = true := by
  unfold evalSen at hok
  cases hg : alistGet sen.annot gold with
  | none =>
      rw [hg] at hok
      exact Except.noConfusion hok
  | some goldAttrs =>
      rw [hg] at hok
      dsimp only at hok
      refine ⟨rfl, ?_⟩
      cases hp1 : (goldAttrs.foldlM (fun st attr =>
          ids.foldlM (fun st ann =>
            if ann = gold then pure st
            else
              match alistGet sen.annot ann with
              | none => Except.error (Err.keyError ann)
              | some attrs =>
                  pure (bumpStat st attr ann
                    (if attr ∈ attrs then Fig.TP else Fig.FN)))
            st)
          st : Except Err GoldStats) with
      | error e =>
          rw [hp1] at hok
          exact Except.noConfusion hok
      | ok st1 =>
          rw [hp1] at hok
          exact fold2_ok_entries sen gold goldAttrs ids st1 st' hok

theorem evalSen_goldempty_missing {ids : List Nat} {gold : Nat}
    {st : GoldStats} {sen : SenRecord}
    (hg : alistGet sen.annot gold = some [])
    (h : ∃ ann ∈ ids, ann ≠ gold ∧ alistGet sen.annot ann = none) :
    ∃ a, evalSen ids gold st sen = Except.error (Err.valueError sen.id a) ∧
      a ∈ ids ∧ alistGet sen.annot a = none := by
  obtain ⟨a, herr, ha, hna⟩ := fold2_missing_error sen gold [] ids st h
  refine ⟨a, ?_, ha, hna⟩
  unfold evalSen
  rw [hg]
  exact herr

theorem evalSen_goldempty_ok {ids : List Nat} {gold : Nat}
    {st : GoldStats} {sen : SenRecord}
    (hg : alistGet sen.annot gold = some [])
    (h : ∀ ann ∈ ids, ann ≠ gold → (alistGet sen.annot ann).isSome = true) :
    ∃ st', evalSen ids gold st sen = Except.ok st' := by
  obtain ⟨st', hok⟩ := fold2_ok_exists sen gold [] ids st h
  refine ⟨st', ?_⟩
  unfold evalSen
  rw [hg]
  exact hok

theorem eval_fold_missing_err (ids : List Nat) (gold : Nat) :
    ∀ (data : List SenRecord) (st : GoldStats),
    (∃ sen ∈ data, ∃ ann ∈ ids, alistGet sen.annot ann = none) →
    ∃ e, (data.foldlM (evalSen ids gold) st) = Except.error e := by
  intro data
  induction data with
  | nil =>
      intro st h
      simp at h
  | cons sen rest ih =>
      intro st h
      cases hev : evalSen ids gold st sen with
      | error e =>
          refine ⟨e, ?_⟩
          rw [List.foldlM_cons, hev]
          rfl
      | ok st1 =>
          obtain ⟨hgold, hents⟩ := evalSen_ok_entries hev
          obtain ⟨q, hq, ann, hann, hnone⟩ := h
          have hq' : q ∈ rest := by
            rcases List.mem_cons.mp hq with h1 | h1
            · exfalso
              subst h1
              by_cases hg : ann = gold
              · rw [hg] at hnone
                rw [hnone] at hgold
                simp at hgold
              · have := hents ann hann hg
                rw [hnone] at this
                simp at this
            · exact h1
          obtain ⟨e, herr⟩ := ih st1 ⟨q, hq', ann, hann, hnone⟩
          refine ⟨e, ?_⟩
          rw [List.foldlM_cons, hev]
          simpa using herr

theorem eval_fold_goldempty (ids : List Nat) (gold : Nat) :
    ∀ (data : List SenRecord) (st : GoldStats),
    (∀ sen ∈ data, alistGet sen.annot gold = some []) →
    (∃ sen ∈ data, ∃ ann ∈ ids, alistGet sen.annot ann = none) →
    ∃ s a, (data.foldlM (evalSen ids gold) st) =
        Except.error (Err.valueError s a) ∧
      ∃ sen ∈ data, sen.id = s ∧ a ∈ ids ∧ alistGet sen.annot a = none := by
  intro data
  induction data with
  | nil =>
      intro st _ h
      simp at h
  | cons sen rest ih =>
      intro st hge h
      have hgs := hge sen (List.mem_cons_self _ _)
      by_cases hmiss : ∃ ann ∈ ids, ann ≠ gold ∧ alistGet sen.annot ann = none
      · obtain ⟨a, herr, ha, hna⟩ := evalSen_goldempty_missing hgs hmiss
        refine ⟨sen.id, a, ?_, sen, List.mem_cons_self _ _, rfl, ha, hna⟩
        rw [List.foldlM_cons, herr]
        rfl
      · have hall : ∀ ann ∈ ids, ann ≠ gold →
            (alistGet sen.annot ann).isSome = true := by
          intro ann hm hng
          cases hv : alistGet sen.annot ann with
          | none => exact absurd ⟨ann, hm, hng, hv⟩ hmiss
          | some _ => rfl
        obtain ⟨st1, hok⟩ := evalSen_goldempty_ok hgs hall
        obtain ⟨q, hq, ann, hann, hnone⟩ := h
        have hq' : q ∈ rest := by
          rcases List.mem_cons.mp hq with h1 | h1
          · exfalso
            subst h1
            by_cases hg : ann = gold
            · rw [hg] at hnone
              rw [hnone] at hgs
              exact Option.noConfusion hgs
            · exact hmiss ⟨ann, hann, hg, hnone⟩
          · exact h1
        obtain ⟨s, a, herr, q', hq2, hrest⟩ :=
          ih st1 (fun x hx => hge x (List.mem_cons_of_mem _ hx))
            ⟨q, hq', ann, hann, hnone⟩
        refine ⟨s, a, ?_, q', List.mem_cons_of_mem _ hq2, hrest⟩
        rw [List.foldlM_cons, hok]
        simpa using herr

/-- Counterexample to C7 as stated: on a sentence where gold selected an
attribute and annotator 1 has no entry, the gold evaluator aborts with a
bare `KeyError` carrying only the annotator id — not an error naming the
offending sentence — while the agreement engine produces the named
`ValueError` on the same input. -/
theorem gold_eval_unnamed_error :
    eval_against_gold missingAnnData missingAnnVocab
      = Except.error (Err.keyError 1) ∧
    (∀ s a, Err.keyError 1 ≠ Err.valueError s a) ∧
    buildRatings 2 missingAnnData = Except.error (Err.valueError "s1" 1) :=
  ⟨rfl, fun _ _ h => Err.noConfusion h, rfl⟩

/-- C7 amended: whenever a known annotator id has no `annot` entry on some
sentence, the agreement engine aborts with the `ValueError` naming an
offending sentence and annotator; the gold evaluator also always aborts,
but its error names the sentence only when it reaches the explicit check —
in particular whenever the gold annotator selected no attributes — and is
otherwise a bare key error naming only the annotator. -/
theorem missing_entry_fatal :
    (∀ (ext : List Nat → List Nat → ℚ) (anns : List (Nat × String))
      (attrLen : Nat) (data : List SenRecord),
      (∃ sen ∈ data, ∃ ann, ann < anns.length ∧ alistGet sen.annot ann = none) →
      ∃ s a, measure_agreement ext anns attrLen data
          = Except.error (Err.valueError s a) ∧
        ∃ sen ∈ data, sen.id = s ∧ a < anns.length ∧
          alistGet sen.annot a = none) ∧
    (∀ (data : List SenRecord) (annV : Vocabulary),
      (∃ sen ∈ data, ∃ ann, ann < annV.words.length ∧
        alistGet sen.annot ann = none) →
      ∃ e, eval_against_gold data annV = Except.error e) ∧
    (∀ (data : List SenRecord) (annV : Vocabulary) (g : Nat),
      annV.get_id "gold" = some g →
      (∀ sen ∈ data, alistGet sen.annot g = some []) →
      (∃ sen ∈ data, ∃ ann, ann < annV.words.length ∧
        alistGet sen.annot ann = none) →
      ∃ s a, eval_against_gold data annV = Except.error (Err.valueError s a) ∧
        ∃ sen ∈ data, sen.id = s ∧ a < annV.words.length ∧
          alistGet sen.annot a = none) := by
  refine ⟨?_, ?_, ?_⟩
  · intro ext anns attrLen data h
    obtain ⟨s, a, herr, hoff⟩ := buildRatings_missing anns.length data h
    refine ⟨s, a, ?_, hoff⟩
    unfold measure_agreement
    rw [herr]
    rfl
  · intro data annV h
    unfold eval_against_gold
    cases hgid : annV.get_id "gold" with
    | none => exact ⟨Err.keyErrorWord "gold", rfl⟩
    | some g =>
        obtain ⟨sen, hs, ann, hlt, hnone⟩ := h
        exact eval_fold_missing_err (List.range annV.words.length) g data
          (fun _ _ _ => 0) ⟨sen, hs, ann, List.mem_range.mpr hlt, hnone⟩
  · intro data annV g hgid hge h
    unfold eval_against_gold
    rw [hgid]
    obtain ⟨sen, hs, ann, hlt, hnone⟩ := h
    obtain ⟨s, a, herr, sen', hs', hid, ha, hna⟩ :=
      eval_fold_goldempty (List.range annV.words.length) g data
        (fun _ _ _ => 0) hge ⟨sen, hs, ann, List.mem_range.mpr hlt, hnone⟩
    exact ⟨s, a, herr, sen', hs', hid, List.mem_range.mp ha, hna⟩

/-- Witness for the amended C7 at concrete inputs: the engine names the
offending sentence and annotator; the evaluator always errors; with an
empty gold set the evaluator also names the offending pair. -/
theorem missing_entry_fatal_witness :
    (∃ s a, measure_agreement extZero [(0, "gold"), (1, "a")] 1 missingAnnData
        = Except.error (Err.valueError s a) ∧
      ∃ sen ∈ missingAnnData, sen.id = s ∧ a < 2 ∧
        alistGet sen.annot a = none) ∧
    (∃ e, eval_against_gold missingAnnData missingAnnVocab
        = Except.error e) ∧
    (∃ s a, eval_against_gold goldEmptyData missingAnnVocab
        = Except.error (Err.valueError s a) ∧
      ∃ sen ∈ goldEmptyData, sen.id = s ∧ a < 2 ∧
        alistGet sen.annot a = none) :=
  ⟨missing_entry_fatal.1 extZero [(0, "gold"), (1, "a")] 1 missingAnnData
      ⟨⟨"s1", "t", [(0, [3])], []⟩, List.mem_cons_self _ _, 1, by decide, rfl⟩,
    missing_entry_fatal.2.1 missingAnnData missingAnnVocab
      ⟨⟨"s1", "t", [(0, [3])], []⟩, List.mem_cons_self _ _, 1, by decide, rfl⟩,
    missing_entry_fatal.2.2 goldEmptyData missingAnnVocab 0 rfl
      (by decide)
      ⟨⟨"s1", "t", [(0, [])], []⟩, List.mem_cons_self _ _, 1, by decide, rfl⟩⟩

theorem dataGet_some_id {d : List SenRecord} {i : String} {rec : SenRecord}
    (h : dataGet d i = some rec) : rec.id = i := by
  induction d with
  | nil => simp [dataGet] at h
  | cons r rest ih =>
      simp only [dataGet] at h
      by_cases hr : r.id = i
      · rw [if_pos hr] at h
        rw [← Option.some.inj h]
        exact hr
      · rw [if_neg hr] at h
        exact ih h

theorem dataGet_append_left {d : List SenRecord} {i : String} {rec : SenRecord}
    (h : dataGet d i = some rec) (l2 : List SenRecord) :
    dataGet (d ++ l2) i = some rec := by
  induction d with
  | nil => simp [dataGet] at h
  | cons r rest ih =>
      simp only [dataGet] at h
      simp only [List.cons_append, dataGet]
      by_cases hr : r.id = i
      · rw [if_pos hr] at h ⊢
        exact h
      · rw [if_neg hr] at h ⊢
        exact ih h

theorem dataSet_get_self {d : List SenRecord} {k : String} {rec : SenRecord}
    (h : dataGet d k = some rec) {r : SenRecord} (hrid : r.id = k) :
    dataGet (dataSet d k r) k = some r := by
  induction d with
  | nil => simp [dataGet] at h
  | cons q rest ih =>
      simp only [dataGet] at h
      by_cases hq : q.id = k
      · simp [dataSet, hq, dataGet, hrid]
      · rw [if_neg hq] at h
        simp only [dataSet, if_neg hq, dataGet]
        exact ih h

theorem dataSet_get_other {k : String} {r : SenRecord} (hrid : r.id = k) :
    ∀ (d : List SenRecord) (i : String), i ≠ k →
    dataGet (dataSet d k r) i = dataGet d i := by
  intro d
  induction d with
  | nil =>
      intro i hik
      have hri : ¬ r.id = i := by
        intro h
        rw [← h] at hik
        exact hik hrid
      simp only [dataSet, dataGet]
      rw [if_neg hri]
  | cons q rest ih =>
      intro i hik
      by_cases hq : q.id = k
      · have hri : ¬ r.id = i := by
          intro h
          rw [← h] at hik
          exact hik hrid
        have hqi : ¬ q.id = i := by
          intro h
          rw [← h] at hik
          exact hik hq
        simp only [dataSet, if_pos hq, dataGet]
        rw [if_neg hri, if_neg hqi]
      · simp only [dataSet, if_neg hq, dataGet]
        by_cases hqi : q.id = i
        · rw [if_pos hqi, if_pos hqi]
        · rw [if_neg hqi, if_neg hqi]
          exact ih i hik

/-- C8: a duplicate (sentence, annotator) pair and a changed sentence text
are both fatal at load time, and in both cases the loader state — in
particular the existing record's `annot` and `text` — is returned exactly
as it was when the assertion fired; moreover a successful row never
changes the text of any existing record, and loading the same file twice
(or a second file with changed text) fails.  The concrete double-load and
text-mismatch runs are included as closed conjuncts. -/
theorem loader_fatal_no_mutation :
    (∀ (annV : Vocabulary) (annId : Nat) (st : List SenRecord × Vocabulary)
      (row : Row) (rec : SenRecord),
      dataGet st.1 row.id = some rec → rec.text ≠ row.text →
      processRow annV annId st row = (st, some (Err.textMismatch row.id))) ∧
    (∀ (annV : Vocabulary) (annId : Nat) (st : List SenRecord × Vocabulary)
      (row : Row) (rec : SenRecord),
      dataGet st.1 row.id = some rec → rec.text = row.text →
      (alistGet rec.annot annId).isSome = true →
      processRow annV annId st row = (st, some Err.dupAnnot)) ∧
    (∀ (annV : Vocabulary) (annId : Nat) (st : List SenRecord × Vocabulary)
      (row : Row) (i : String) (rec : SenRecord),
      dataGet st.1 i = some rec →
      ∃ rec', dataGet (processRow annV annId st row).1.1 i = some rec' ∧
        rec'.text = rec.text) ∧
    (load_data [collisionFile, collisionFile]).2 = some Err.dupAnnot ∧
    (load_data [collisionFile, ⟨"ann2", [⟨"s1", "u", []⟩]⟩]).2
      = some (Err.textMismatch "s1") := by
  refine ⟨?_, ?_, ?_, by decide, by decide⟩
  · intro annV annId st row rec hget hne
    unfold processRow
    rw [hget]
    dsimp only
    rw [if_pos hne]
  · intro annV annId st row rec hget hte hdup
    unfold processRow
    rw [hget]
    dsimp only
    rw [if_neg (by simpa using hte), if_pos hdup]
  · intro annV annId st row i rec hget
    unfold processRow
    cases hrow : dataGet st.1 row.id with
    | none =>
        dsimp only
        exact ⟨rec, dataGet_append_left hget _, rfl⟩
    | some rec0 =>
        dsimp only
        by_cases hne : rec0.text ≠ row.text
        · rw [if_pos hne]
          exact ⟨rec, hget, rfl⟩
        · rw [if_neg hne]
          by_cases hdup : (alistGet rec0.annot annId).isSome
          · rw [if_pos hdup]
            exact ⟨rec, hget, rfl⟩
          · rw [if_neg hdup]
            dsimp only
            have hrid : (writeRec annV st.2 annId rec0 row).1.id = row.id := by
              have h1 : (writeRec annV st.2 annId rec0 row).1.id = rec0.id := rfl
              rw [h1]
              exact dataGet_some_id hrow
            by_cases hik : i = row.id
            · subst hik
              have hrec : rec = rec0 := by
                rw [hget] at hrow
                exact Option.some.inj hrow.symm |>.symm
              refine ⟨(writeRec annV st.2 annId rec0 row).1,
                dataSet_get_self hrow hrid, ?_⟩
              have h2 : (writeRec annV st.2 annId rec0 row).1.text = rec0.text := rfl
              rw [h2, hrec]
            · refine ⟨rec, ?_, rfl⟩
              rw [dataSet_get_other hrid st.1 i hik]
              exact hget

/-- Witness for C8 at a concrete loaded state: a changed-text row and a
duplicate-annotator row both fail leaving the state untouched, and a
successful row from a second annotator keeps the record's text. -/
theorem loader_fatal_no_mutation_witness :
    processRow ⟨["ann1"]⟩ 0 loadedSt ⟨"s1", "u", []⟩
      = (loadedSt, some (Err.textMismatch "s1")) ∧
    processRow ⟨["ann1"]⟩ 0 loadedSt ⟨"s1", "t", []⟩
      = (loadedSt, some Err.dupAnnot) ∧
    (∃ rec', dataGet (processRow ⟨["ann1", "ann2"]⟩ 1 loadedSt
        ⟨"s1", "t", ["X"]⟩).1.1 "s1" = some rec' ∧
      rec'.text = (⟨"s1", "t", [(0, [0, 0])], [(0, 2)]⟩ : SenRecord).text) :=
  ⟨loader_fatal_no_mutation.1 ⟨["ann1"]⟩ 0 loadedSt ⟨"s1", "u", []⟩
      ⟨"s1", "t", [(0, [0, 0])], [(0, 2)]⟩ (by decide) (by decide),
    loader_fatal_no_mutation.2.1 ⟨["ann1"]⟩ 0 loadedSt ⟨"s1", "t", []⟩
      ⟨"s1", "t", [(0, [0, 0])], [(0, 2)]⟩ (by decide) (by decide) (by decide),
    loader_fatal_no_mutation.2.2.1 ⟨["ann1", "ann2"]⟩ 1 loadedSt
      ⟨"s1", "t", ["X"]⟩ "s1" ⟨"s1", "t", [(0, [0, 0])], [(0, 2)]⟩ (by decide)⟩

theorem alistGet_append {β : Type} (l1 l2 : List (Nat × β)) (j : Nat) :
    alistGet (l1 ++ l2) j =
      if (alistGet l1 j).isSome then alistGet l1 j else alistGet l2 j := by
  induction l1 with
  | nil => simp [alistGet]
  | cons p rest ih =>
      simp only [List.cons_append, alistGet]
      by_cases hp : p.1 = j
      · simp [hp]
      · simp only [if_neg hp]
        exact ih

theorem alistGet_isSome_iff_mem {β : Type} (c : List (Nat × β)) (j : Nat) :
    (alistGet c j).isSome = true ↔ j ∈ c.map Prod.fst := by
  induction c with
  | nil => simp [alistGet]
  | cons p rest ih =>
      simp only [alistGet, List.map_cons, List.mem_cons]
      by_cases hp : p.1 = j
      · simp [hp]
      · rw [if_neg hp, ih]
        constructor
        · exact Or.inr
        · intro h
          rcases h with h1 | h1
          · exact absurd h1.symm hp
          · exact h1

theorem counterGet_counterEnsure (c : List (Nat × Nat)) (k j : Nat) :
    counterGet (counterEnsure c k) j = counterGet c j := by
  unfold counterEnsure
  by_cases h : (alistGet c k).isSome = true
  · rw [if_pos h]
  · rw [if_neg h]
    unfold counterGet
    rw [alistGet_append]
    by_cases hj : (alistGet c j).isSome = true
    · rw [if_pos hj]
    · rw [if_neg hj]
      have hcj : alistGet c j = none := by
        cases hv : alistGet c j with
        | none => rfl
        | some v => rw [hv] at hj; simp at hj
      rw [hcj]
      simp only [alistGet]
      by_cases hkj : k = j
      · rw [if_pos hkj]
        rfl
      · rw [if_neg hkj]

theorem counterGet_foldl_counterEnsure (l : List Nat) (c : List (Nat × Nat))
    (j : Nat) : counterGet (l.foldl counterEnsure c) j = counterGet c j := by
  induction l generalizing c with
  | nil => rfl
  | cons x rest ih => rw [List.foldl_cons, ih, counterGet_counterEnsure]

theorem counterEnsure_keys_mem {c : List (Nat × Nat)} {j : Nat}
    (h : j ∈ c.map Prod.fst) (k : Nat) :
    j ∈ (counterEnsure c k).map Prod.fst := by
  unfold counterEnsure
  by_cases hs : (alistGet c k).isSome = true
  · rw [if_pos hs]
    exact h
  · rw [if_neg hs]
    rw [List.map_append]
    exact List.mem_append_left _ h

theorem counterInc_keys_mem {c : List (Nat × Nat)} {j : Nat}
    (h : j ∈ c.map Prod.fst) (k : Nat) :
    j ∈ (counterInc c k).map Prod.fst := by
  rw [counterInc_keys]
  by_cases hk : k ∈ c.map Prod.fst
  · rw [if_pos hk]
    exact h
  · rw [if_neg hk]
    exact List.mem_append_left _ h

theorem foldl_counterEnsure_keys_mem {c : List (Nat × Nat)} {j : Nat}
    (h : j ∈ c.map Prod.fst) (l : List Nat) :
    j ∈ (l.foldl counterEnsure c).map Prod.fst := by
  induction l generalizing c with
  | nil => exact h
  | cons x rest ih => exact ih (counterEnsure_keys_mem h x)

theorem foldl_counterInc_keys_mem {c : List (Nat × Nat)} {j : Nat}
    (h : j ∈ c.map Prod.fst) (l : List Nat) :
    j ∈ (l.foldl counterInc c).map Prod.fst := by
  induction l generalizing c with
  | nil => exact h
  | cons x rest ih => exact ih (counterInc_keys_mem h x)

theorem foldl_counterEnsure_mem_of_mem {l : List Nat} {a : Nat} (h : a ∈ l) :
    ∀ c, a ∈ (l.foldl counterEnsure c).map Prod.fst := by
  induction l with
  | nil => simp at h
  | cons x rest ih =>
      intro c
      rw [List.foldl_cons]
      rcases List.mem_cons.mp h with h1 | h1
      · subst h1
        apply foldl_counterEnsure_keys_mem
        unfold counterEnsure
        by_cases hs : (alistGet c a).isSome = true
        · rw [if_pos hs]
          exact (alistGet_isSome_iff_mem c a).mp hs
        · rw [if_neg hs]
          rw [List.map_append]
          apply List.mem_append_right
          simp
      · exact ih h1 _

theorem alistSet_absent {β : Type} {l : List (Nat × β)} {k : Nat}
    (h : alistGet l k = none) (v : β) : alistSet l k v = l ++ [(k, v)] := by
  induction l with
  | nil => rfl
  | cons p rest ih =>
      simp only [alistGet] at h
      by_cases hp : p.1 = k
      · rw [if_pos hp] at h
        exact Option.noConfusion h
      · rw [if_neg hp] at h
        simp only [alistSet, if_neg hp, List.cons_append]
        rw [ih h]

theorem alistSet_mem {β : Type} {l : List (Nat × β)} {k : Nat} {v : β} :
    ∀ q ∈ alistSet l k v, q ∈ l ∨ q = (k, v) := by
  induction l with
  | nil =>
      intro q hq
      simp only [alistSet, List.mem_singleton] at hq
      exact Or.inr hq
  | cons p rest ih =>
      intro q hq
      by_cases hp : p.1 = k
      · simp only [alistSet, if_pos hp, List.mem_cons] at hq
        rcases hq with h1 | h1
        · exact Or.inr h1
        · exact Or.inl (List.mem_cons_of_mem _ h1)
      · simp only [alistSet, if_neg hp, List.mem_cons] at hq
        rcases hq with h1 | h1
        · exact Or.inl (h1 ▸ List.mem_cons_self p rest)
        · rcases ih q h1 with h2 | h2
          · exact Or.inl (List.mem_cons_of_mem _ h2)
          · exact Or.inr h2

theorem dataSet_mem {d : List SenRecord} {i : String} {r : SenRecord} :
    ∀ q ∈ dataSet d i r, q ∈ d ∨ q = r := by
  induction d with
  | nil =>
      intro q hq
      simp only [dataSet, List.mem_singleton] at hq
      exact Or.inr hq
  | cons p rest ih =>
      intro q hq
      by_cases hp : p.id = i
      · simp only [dataSet, if_pos hp, List.mem_cons] at hq
        rcases hq with h1 | h1
        · exact Or.inr h1
        · exact Or.inl (List.mem_cons_of_mem _ h1)
      · simp only [dataSet, if_neg hp, List.mem_cons] at hq
        rcases hq with h1 | h1
        · exact Or.inl (h1 ▸ List.mem_cons_self p rest)
        · rcases ih q h1 with h2 | h2
          · exact Or.inl (List.mem_cons_of_mem _ h2)
          · exact Or.inr h2

theorem internAttrs_aux (attrs : List String) :
    ∀ (v : Vocabulary) (acc : List Nat),
    (attrs.foldl (fun st a =>
      let r := st.2.getIdNew (preprocess_attr a)
      (st.1 ++ [r.1], r.2)) (acc, v))
      = (acc ++ (internAttrs v attrs).1, (internAttrs v attrs).2) := by
  induction attrs with
  | nil =>
      intro v acc
      simp [internAttrs]
  | cons a rest ih =>
      intro v acc
      rw [List.foldl_cons]
      unfold internAttrs
      rw [List.foldl_cons]
      dsimp only
      rw [ih (v.getIdNew (preprocess_attr a)).2 (acc ++ [(v.getIdNew (preprocess_attr a)).1]),
        ih (v.getIdNew (preprocess_attr a)).2 ([] ++ [(v.getIdNew (preprocess_attr a)).1])]
      simp

theorem internAttrs_spec (attrs : List String) :
    ∀ (v : Vocabulary),
    (∃ ext, (internAttrs v attrs).2.words = v.words ++ ext) ∧
    ((internAttrs v attrs).1).map
        (fun i => (internAttrs v attrs).2.words[i]?)
      = attrs.map (fun a => some (preprocess_attr a)) := by
  induction attrs with
  | nil =>
      intro v
      exact ⟨⟨[], by simp [internAttrs]⟩, by simp [internAttrs]⟩
  | cons a rest ih =>
      intro v
      have hstep : internAttrs v (a :: rest)
          = ((v.getIdNew (preprocess_attr a)).1 ::
              (internAttrs (v.getIdNew (preprocess_attr a)).2 rest).1,
            (internAttrs (v.getIdNew (preprocess_attr a)).2 rest).2) := by
        unfold internAttrs
        rw [List.foldl_cons]
        dsimp only
        rw [internAttrs_aux rest (v.getIdNew (preprocess_attr a)).2
          ([] ++ [(v.getIdNew (preprocess_attr a)).1])]
        simp [internAttrs]
      obtain ⟨⟨ext, hext⟩, hmap⟩ := ih (v.getIdNew (preprocess_attr a)).2
      rcases getIdNew_words v (preprocess_attr a) with hw | hw
      · refine ⟨⟨ext, by rw [hstep]; dsimp only; rw [hext, hw]⟩, ?_⟩
        rw [hstep]
        dsimp only
        rw [List.map_cons, hmap]
        congr 1
        rw [hext]
        have hlt := getIdNew_lt v (preprocess_attr a)
        rw [List.getElem?_append_left hlt]
        exact get_word_getIdNew_self v (preprocess_attr a)
      · refine ⟨⟨[preprocess_attr a] ++ ext, by
          rw [hstep]; dsimp only; rw [hext, hw, List.append_assoc]⟩, ?_⟩
        rw [hstep]
        dsimp only
        rw [List.map_cons, hmap]
        congr 1
        rw [hext]
        have hlt := getIdNew_lt v (preprocess_attr a)
        rw [List.getElem?_append_left hlt]
        exact get_word_getIdNew_self v (preprocess_attr a)

theorem internAttrs_nodup {attrs : List String} {v : Vocabulary}
    (h : (attrs.map preprocess_attr).Nodup) : (internAttrs v attrs).1.Nodup := by
  obtain ⟨_, hmap⟩ := internAttrs_spec attrs v
  have h2 : (attrs.map (fun a => some (preprocess_attr a))).Nodup := by
    have : attrs.map (fun a => some (preprocess_attr a))
        = (attrs.map preprocess_attr).map some := by
      rw [List.map_map]
      rfl
    rw [this]
    exact h.map (fun _ _ he => Option.some.inj he)
  rw [← hmap] at h2
  exact h2.of_map _

theorem dataGet_mem {d : List SenRecord} {i : String} {rec : SenRecord}
    (h : dataGet d i = some rec) : rec ∈ d := by
  induction d with
  | nil => simp [dataGet] at h
  | cons q rest ih =>
      simp only [dataGet] at h
      by_cases hq : q.id = i
      · rw [if_pos hq] at h
        rw [← Option.some.inj h]
        exact List.mem_cons_self q rest
      · rw [if_neg hq] at h
        exact List.mem_cons_of_mem _ (ih h)

theorem statsSum_append (annV : Vocabulary) (l1 l2 : List (Nat × List Nat))
    (a : Nat) :
    statsSum annV (l1 ++ l2) a = statsSum annV l1 a + statsSum annV l2 a := by
  unfold statsSum
  rw [List.map_append, List.sum_append]

theorem statsSum_congr {v v' : Vocabulary} (annot : List (Nat × List Nat))
    (a : Nat) (h : ∀ p ∈ annot, v.get_word p.1 = v'.get_word p.1) :
    statsSum v annot a = statsSum v' annot a := by
  unfold statsSum
  congr 1
  apply List.map_congr_left
  intro p hp
  rw [isGold, isGold, h p hp]

theorem recordInv_trans {annV : Vocabulary} {rec : SenRecord} (w : String)
    (h : RecordInv annV rec) : RecordInv (annV.getIdNew w).2 rec := by
  obtain ⟨hs, hb, hst, hgp⟩ := h
  have hstable : ∀ p ∈ rec.annot,
      (annV.getIdNew w).2.get_word p.1 = annV.get_word p.1 :=
    fun p hp => get_word_stable annV w (hb p hp)
  refine ⟨hs, ?_, ?_, ?_⟩
  · intro p hp
    exact lt_of_lt_of_le (hb p hp) (getIdNew_le annV w)
  · intro a
    rw [hst a]
    exact (statsSum_congr rec.annot a hstable).symm
  · intro p hp hg a ha
    apply hgp p hp _ a ha
    rw [isGold, ← hstable p hp]
    exact hg

theorem writeRec_inv (annV attrV : Vocabulary) (annId : Nat) (rec : SenRecord)
    (row : Row) (hlt : annId < annV.words.length)
    (habs : alistGet rec.annot annId = none)
    (hinv : RecordInv annV rec) :
    RecordInv annV (writeRec annV attrV annId rec row).1 := by
  obtain ⟨hs, hb, hst, hgp⟩ := hinv
  have hset : alistSet rec.annot annId
      (sortNat (internAttrs attrV (distinctList row.attributes)).1)
      = rec.annot ++ [(annId,
          sortNat (internAttrs attrV (distinctList row.attributes)).1)] :=
    alistSet_absent habs _
  unfold writeRec
  dsimp only
  rw [hset]
  by_cases hg : annV.get_word annId ≠ some "gold"
  · have hig : isGold annV annId = false := by
      simp [isGold]
      intro h
      exact absurd h hg
    rw [if_pos hg]
    refine ⟨?_, ?_, ?_, ?_⟩
    · intro p hp
      rcases List.mem_append.mp hp with h1 | h1
      · exact hs p h1
      · rw [List.mem_singleton.mp h1]
        exact sortNat_sorted _
    · intro p hp
      rcases List.mem_append.mp hp with h1 | h1
      · exact hb p h1
      · rw [List.mem_singleton.mp h1]
        exact hlt
    · intro a
      rw [counterGet_foldl_counterInc, hst a, statsSum_append]
      unfold statsSum
      simp [hig]
    · intro p hp hpg a ha
      rcases List.mem_append.mp hp with h1 | h1
      · rw [alistGet_isSome_iff_mem]
        apply foldl_counterInc_keys_mem
        rw [← alistGet_isSome_iff_mem]
        exact hgp p h1 hpg a ha
      · exfalso
        rw [List.mem_singleton.mp h1] at hpg
        dsimp only at hpg
        rw [hig] at hpg
        exact Bool.noConfusion hpg
  · have hig : isGold annV annId = true := by
      rw [Classical.not_not] at hg
      simp [isGold, hg]
    rw [if_neg hg]
    refine ⟨?_, ?_, ?_, ?_⟩
    · intro p hp
      rcases List.mem_append.mp hp with h1 | h1
      · exact hs p h1
      · rw [List.mem_singleton.mp h1]
        exact sortNat_sorted _
    · intro p hp
      rcases List.mem_append.mp hp with h1 | h1
      · exact hb p h1
      · rw [List.mem_singleton.mp h1]
        exact hlt
    · intro a
      rw [counterGet_foldl_counterEnsure, hst a, statsSum_append]
      unfold statsSum
      simp [hig]
    · intro p hp hpg a ha
      rcases List.mem_append.mp hp with h1 | h1
      · rw [alistGet_isSome_iff_mem]
        apply foldl_counterEnsure_keys_mem
        rw [← alistGet_isSome_iff_mem]
        exact hgp p h1 hpg a ha
      · rw [List.mem_singleton.mp h1] at ha
        dsimp only at ha
        rw [alistGet_isSome_iff_mem]
        exact foldl_counterEnsure_mem_of_mem ha _

theorem loadRows_preserve {P : List SenRecord × Vocabulary → Prop}
    {C : Row → Prop} (annV : Vocabulary) (annId : Nat)
    (hstep : ∀ st row st', C row → processRow annV annId st row = (st', none) →
      P st → P st') :
    ∀ (rows : List Row) (st st' : List SenRecord × Vocabulary),
    (∀ row ∈ rows, C row) → loadRows annV annId st rows = (st', none) →
    P st → P st' := by
  intro rows
  induction rows with
  | nil =>
      intro st st' _ h hp
      unfold loadRows at h
      obtain ⟨h1, -⟩ := Prod.mk.inj h
      rw [← h1]
      exact hp
  | cons row rest ih =>
      intro st st' hC h hp
      unfold loadRows at h
      cases hpr : processRow annV annId st row with
      | mk st1 e =>
          rw [hpr] at h
          cases e with
          | none =>
              dsimp only at h
              exact ih st1 st' (fun r hr => hC r (List.mem_cons_of_mem _ hr)) h
                (hstep st row st1 (hC row (List.mem_cons_self _ _)) hpr hp)
          | some err =>
              dsimp only at h
              obtain ⟨-, h2⟩ := Prod.mk.inj h
              exact Option.noConfusion h2

theorem loadFiles_preserve {Q : List SenRecord × Vocabulary × Vocabulary → Prop}
    {C : Row → Prop}
    (htrans : ∀ d av (annV : Vocabulary) w,
      Q (d, av, annV) → Q (d, av, (annV.getIdNew w).2))
    (hstep : ∀ (annV : Vocabulary) (annId : Nat) st row st',
      annId < annV.words.length → C row →
      processRow annV annId st row = (st', none) →
      Q (st.1, st.2, annV) → Q (st'.1, st'.2, annV)) :
    ∀ (files : List LoadFile) (st st' : List SenRecord × Vocabulary × Vocabulary),
    (∀ f ∈ files, ∀ row ∈ f.rows, C row) →
    loadFiles st files = (st', none) → Q st → Q st' := by
  intro files
  induction files with
  | nil =>
      intro st st' _ h hq
      unfold loadFiles at h
      obtain ⟨h1, -⟩ := Prod.mk.inj h
      rw [← h1]
      exact hq
  | cons f rest ih =>
      intro st st' hC h hq
      obtain ⟨data, attrV, annV⟩ := st
      unfold loadFiles at h
      dsimp only at h
      cases hlr : loadRows (annV.getIdNew f.annName).2 (annV.getIdNew f.annName).1
          (data, attrV) f.rows with
      | mk st1 e =>
          obtain ⟨data1, attrV1⟩ := st1
          rw [hlr] at h
          cases e with
          | none =>
              dsimp only at h
              have hq1 : Q (data, attrV, (annV.getIdNew f.annName).2) :=
                htrans data attrV annV f.annName hq
              have hq2 : Q (data1, attrV1, (annV.getIdNew f.annName).2) := by
                have := loadRows_preserve
                  (P := fun dv => Q (dv.1, dv.2, (annV.getIdNew f.annName).2))
                  (annV.getIdNew f.annName).2 (annV.getIdNew f.annName).1
                  (fun st₀ row st₁ hc hpr hp =>
                    hstep (annV.getIdNew f.annName).2 (annV.getIdNew f.annName).1
                      st₀ row st₁ (getIdNew_lt annV f.annName) hc hpr hp)
                  f.rows (data, attrV) (data1, attrV1)
                  (fun r hr => hC f (List.mem_cons_self _ _) r hr) hlr hq1
                exact this
              exact ih (data1, attrV1, (annV.getIdNew f.annName).2) st'
                (fun g hg r hr => hC g (List.mem_cons_of_mem _ hg) r hr) h hq2
          | some err =>
              dsimp only at h
              obtain ⟨-, h2⟩ := Prod.mk.inj h
              exact Option.noConfusion h2

theorem processRow_recordInv (annV : Vocabulary) (annId : Nat)
    (st : List SenRecord × Vocabulary) (row : Row)
    (st' : List SenRecord × Vocabulary)
    (hlt : annId < annV.words.length)
    (hpr : processRow annV annId st row = (st', none))
    (hp : ∀ rec ∈ st.1, RecordInv annV rec) :
    ∀ rec ∈ st'.1, RecordInv annV rec := by
  unfold processRow at hpr
  cases hget : dataGet st.1 row.id with
  | none =>
      rw [hget] at hpr
      dsimp only at hpr
      obtain ⟨h1, -⟩ := Prod.mk.inj hpr
      intro rec hrec
      rw [← h1] at hrec
      rcases List.mem_append.mp hrec with hm | hm
      · exact hp rec hm
      · rw [List.mem_singleton.mp hm]
        apply writeRec_inv annV st.2 annId ⟨row.id, row.text, [], []⟩ row hlt rfl
        refine ⟨?_, ?_, ?_, ?_⟩
        · intro p hp2
          simp at hp2
        · intro p hp2
          simp at hp2
        · intro a
          simp [counterGet, alistGet, statsSum]
        · intro p hp2
          simp at hp2
  | some rec0 =>
      rw [hget] at hpr
      dsimp only at hpr
      by_cases hne : rec0.text ≠ row.text
      · rw [if_pos hne] at hpr
        obtain ⟨-, h2⟩ := Prod.mk.inj hpr
        exact Option.noConfusion h2
      · rw [if_neg hne] at hpr
        by_cases hdup : (alistGet rec0.annot annId).isSome = true
        · rw [if_pos hdup] at hpr
          obtain ⟨-, h2⟩ := Prod.mk.inj hpr
          exact Option.noConfusion h2
        · rw [if_neg hdup] at hpr
          obtain ⟨h1, -⟩ := Prod.mk.inj hpr
          intro rec hrec
          rw [← h1] at hrec
          rcases dataSet_mem rec hrec with hm | hm
          · exact hp rec hm
          · rw [hm]
            apply writeRec_inv annV st.2 annId rec0 row hlt
            · cases hv : alistGet rec0.annot annId with
              | none => rfl
              | some v =>
                  rw [hv] at hdup
                  simp at hdup
            · exact hp rec0 (dataGet_mem hget)

theorem processRow_nodup (annV : Vocabulary) (annId : Nat)
    (st : List SenRecord × Vocabulary) (row : Row)
    (st' : List SenRecord × Vocabulary)
    (hC : ((distinctList row.attributes).map preprocess_attr).Nodup)
    (hpr : processRow annV annId st row = (st', none))
    (hp : ∀ rec ∈ st.1, ∀ p ∈ rec.annot, p.2.Nodup) :
    ∀ rec ∈ st'.1, ∀ p ∈ rec.annot, p.2.Nodup := by
  have hstored : (sortNat (internAttrs st.2 (distinctList row.attributes)).1).Nodup :=
    sortNat_nodup (internAttrs_nodup hC)
  unfold processRow at hpr
  cases hget : dataGet st.1 row.id with
  | none =>
      rw [hget] at hpr
      dsimp only at hpr
      obtain ⟨h1, -⟩ := Prod.mk.inj hpr
      intro rec hrec
      rw [← h1] at hrec
      rcases List.mem_append.mp hrec with hm | hm
      · exact hp rec hm
      · rw [List.mem_singleton.mp hm]
        intro p hp2
        unfold writeRec at hp2
        dsimp only at hp2
        rcases alistSet_mem p hp2 with h3 | h3
        · simp at h3
        · rw [h3]
          exact hstored
  | some rec0 =>
      rw [hget] at hpr
      dsimp only at hpr
      by_cases hne : rec0.text ≠ row.text
      · rw [if_pos hne] at hpr
        obtain ⟨-, h2⟩ := Prod.mk.inj hpr
        exact Option.noConfusion h2
      · rw [if_neg hne] at hpr
        by_cases hdup : (alistGet rec0.annot annId).isSome = true
        · rw [if_pos hdup] at hpr
          obtain ⟨-, h2⟩ := Prod.mk.inj hpr
          exact Option.noConfusion h2
        · rw [if_neg hdup] at hpr
          obtain ⟨h1, -⟩ := Prod.mk.inj hpr
          intro rec hrec
          rw [← h1] at hrec
          rcases dataSet_mem rec hrec with hm | hm
          · exact hp rec hm
          · rw [hm]
            intro p hp2
            unfold writeRec at hp2
            dsimp only at hp2
            rcases alistSet_mem p hp2 with h3 | h3
            · exact hp rec0 (dataGet_mem hget) p h3
            · rw [h3]
              exact hstored

theorem load_data_recordInv (files : List LoadFile)
    (st' : List SenRecord × Vocabulary × Vocabulary)
    (h : load_data files = (st', none)) :
    ∀ rec ∈ st'.1, RecordInv st'.2.2 rec := by
  exact loadFiles_preserve
    (Q := fun t => ∀ rec ∈ t.1, RecordInv t.2.2 rec)
    (C := fun _ => True)
    (fun d av annV w hq rec hrec => recordInv_trans w (hq rec hrec))
    (fun annV annId st row st₂ hlt _ hpr hq =>
      processRow_recordInv annV annId st row st₂ hlt hpr hq)
    files ([], ⟨[]⟩, ⟨[]⟩) st' (fun _ _ _ _ => trivial) h
    (by intro rec hrec; simp at hrec)

theorem load_data_nodup (files : List LoadFile)
    (st' : List SenRecord × Vocabulary × Vocabulary)
    (hC : ∀ f ∈ files, ∀ row ∈ f.rows,
      ((distinctList row.attributes).map preprocess_attr).Nodup)
    (h : load_data files = (st', none)) :
    ∀ rec ∈ st'.1, ∀ p ∈ rec.annot, p.2.Nodup := by
  exact loadFiles_preserve
    (Q := fun t => ∀ rec ∈ t.1, ∀ p ∈ rec.annot, p.2.Nodup)
    (C := fun row => ((distinctList row.attributes).map preprocess_attr).Nodup)
    (fun d av annV w hq => hq)
    (fun annV annId st row st₂ _ hc hpr hq =>
      processRow_nodup annV annId st row st₂ hc hpr hq)
    files ([], ⟨[]⟩, ⟨[]⟩) st' hC h
    (by intro rec hrec; simp at hrec)

theorem statsSum_eq_filter (annV : Vocabulary) (a : Nat) :
    ∀ (annot : List (Nat × List Nat)), (∀ p ∈ annot, p.2.Nodup) →
    statsSum annV annot a
      = (annot.filter (fun p => !isGold annV p.1 && p.2.contains a)).length := by
  intro annot
  induction annot with
  | nil =>
      intro _
      rfl
  | cons p rest ih =>
      intro hnd
      have ihr := ih (fun q hq => hnd q (List.mem_cons_of_mem _ hq))
      have hcons : statsSum annV (p :: rest) a
          = (if isGold annV p.1 then 0 else p.2.count a) + statsSum annV rest a := by
        unfold statsSum
        rw [List.map_cons, List.sum_cons]
      rw [hcons, ihr]
      by_cases hg : isGold annV p.1 = true
      · have hb : (fun q : Nat × List Nat =>
            !isGold annV q.1 && q.2.contains a) p = false := by
          dsimp only
          rw [hg]
          rfl
        rw [filter_cons_length_false rest hb, hg]
        simp
      · have hg' : isGold annV p.1 = false := by
          rcases Bool.eq_false_or_eq_true (isGold annV p.1) with h1 | h1
          · exact absurd h1 hg
          · exact h1
        by_cases hm : a ∈ p.2
        · have hb : (fun q : Nat × List Nat =>
              !isGold annV q.1 && q.2.contains a) p = true := by
            dsimp only
            rw [hg']
            simp [List.contains, hm]
          have hc : p.2.count a = 1 :=
            List.count_eq_one_of_mem (hnd p (List.mem_cons_self _ _)) hm
          rw [filter_cons_length_true rest hb, hg', hc]
          simp only [Bool.false_eq_true, if_false]
          omega
        · have hb : (fun q : Nat × List Nat =>
              !isGold annV q.1 && q.2.contains a) p = false := by
            dsimp only
            rw [hg']
            simp [List.contains]
            intro hc
            exact absurd hc hm
          have hc : p.2.count a = 0 := by
            rw [List.count_eq_zero]
            exact hm
          rw [filter_cons_length_false rest hb, hg', hc]
          simp

/-- Counterexample to C5 as stated: one row carrying both raw labels
`BBDachneigungMax` and `DachneigungMax` is deduplicated via `set()` before
normalization, so both survive, normalize to the same string and intern to
the same id — the stored list is `[0, 0]`, which is not duplicate-free. -/
theorem loader_duplicate_ids :
    (load_data [collisionFile]).2 = none ∧
    (load_data [collisionFile]).1.1.map (fun s => alistGet s.annot 0)
      = [some [0, 0]] ∧
    ¬ ([0, 0] : List Nat).Nodup :=
  ⟨by decide, by decide, by decide⟩

/-- C5 amended: every stored annot value is a list of attribute ids sorted
by id; it is additionally duplicate-free provided no two distinct raw
labels of the same row normalize (via `REPLACEMENT_PAIRS`) to the same
string — the `set()` deduplication happens before `preprocess_attr`, so a
row containing both members of a replacement pair stores the shared id
twice. -/
theorem loader_stored_lists (files : List LoadFile)
    (st' : List SenRecord × Vocabulary × Vocabulary)
    (h : load_data files = (st', none)) :
    (∀ rec ∈ st'.1, ∀ p ∈ rec.annot, List.Sorted (· ≤ ·) p.2) ∧
    ((∀ f ∈ files, ∀ row ∈ f.rows,
        ((distinctList row.attributes).map preprocess_attr).Nodup) →
      ∀ rec ∈ st'.1, ∀ p ∈ rec.annot, p.2.Nodup) :=
  ⟨fun rec hrec => (load_data_recordInv files st' h rec hrec).1,
    fun hC => load_data_nodup files st' hC h⟩

/-- Witness for the amended C5 on a concrete three-file input with no
replacement-pair collision: stored lists are sorted and duplicate-free. -/
theorem loader_stored_lists_witness :
    (∀ rec ∈ (load_data agreeFiles).1.1, ∀ p ∈ rec.annot,
      List.Sorted (· ≤ ·) p.2) ∧
    (∀ rec ∈ (load_data agreeFiles).1.1, ∀ p ∈ rec.annot, p.2.Nodup) :=
  ⟨(loader_stored_lists agreeFiles (load_data agreeFiles).1 (by decide)).1,
    (loader_stored_lists agreeFiles (load_data agreeFiles).1 (by decide)).2
      (by decide)⟩

/-- Counterexample to C6 as stated: with the replacement-pair collision in
one row of a single (non-gold) annotator, `attr_stats` maps attribute 0 to
2 although only one non-gold annotator selected it — the loop iterates the
stored list, which holds the shared id twice. -/
theorem loader_attr_stats_miscount :
    (load_data [collisionFile]).2 = none ∧
    (load_data [collisionFile]).1.1.map (fun s => counterGet s.attr_stats 0)
      = [2] ∧
    (load_data [collisionFile]).1.1.map (fun s =>
      (s.annot.filter (fun p =>
        !isGold (load_data [collisionFile]).1.2.2 p.1 && p.2.contains 0)).length)
      = [1] :=
  ⟨by decide, by decide, by decide⟩

/-- C6 amended: after loading, `attr_stats` maps each attribute id to the
total number of occurrences of that id across non-gold annotators' stored
lists — which equals the number of non-gold annotators that selected it
whenever the stored lists are duplicate-free — and every attribute of a
gold entry is present in `attr_stats` (with a key that is never
incremented by gold, so gold-only attributes carry count 0 via the sum
over non-gold entries only). -/
theorem loader_attr_stats (files : List LoadFile)
    (st' : List SenRecord × Vocabulary × Vocabulary)
    (h : load_data files = (st', none)) :
    ∀ rec ∈ st'.1,
      (∀ a, counterGet rec.attr_stats a = statsSum st'.2.2 rec.annot a) ∧
      (∀ p ∈ rec.annot, isGold st'.2.2 p.1 = true →
        ∀ a ∈ p.2, (alistGet rec.attr_stats a).isSome = true) ∧
      ((∀ p ∈ rec.annot, p.2.Nodup) →
        ∀ a, counterGet rec.attr_stats a =
          (rec.annot.filter (fun p =>
            !isGold st'.2.2 p.1 && p.2.contains a)).length) := by
  intro rec hrec
  obtain ⟨-, -, hst, hgp⟩ := load_data_recordInv files st' h rec hrec
  refine ⟨hst, hgp, ?_⟩
  intro hnd a
  rw [hst a]
  exact statsSum_eq_filter st'.2.2 a rec.annot hnd

/-- Witness for the amended C6 on the concrete three-file input: counts
match the occurrence sums, gold attributes have `attr_stats` keys, and
with duplicate-free lists the counts are annotator counts. -/
theorem loader_attr_stats_witness :
    (∀ rec ∈ (load_data agreeFiles).1.1, ∀ a,
      counterGet rec.attr_stats a
        = statsSum (load_data agreeFiles).1.2.2 rec.annot a) ∧
    (∀ rec ∈ (load_data agreeFiles).1.1, ∀ p ∈ rec.annot,
      isGold (load_data agreeFiles).1.2.2 p.1 = true →
        ∀ a ∈ p.2, (alistGet rec.attr_stats a).isSome = true) ∧
    (∀ rec ∈ (load_data agreeFiles).1.1, (∀ p ∈ rec.annot, p.2.Nodup) →
      ∀ a, counterGet rec.attr_stats a =
        (rec.annot.filter (fun p =>
          !isGold (load_data agreeFiles).1.2.2 p.1 && p.2.contains a)).length) := by
  have h := loader_attr_stats agreeFiles (load_data agreeFiles).1 (by decide)
  exact ⟨fun rec hr => (h rec hr).1, fun rec hr => (h rec hr).2.1,
    fun rec hr => (h rec hr).2.2⟩

theorem all_equal_iff (l : List (List Nat)) :
    all_equal l = true ↔ ∀ x ∈ l, ∀ y ∈ l, x = y := by
  cases l with
  | nil => simp [all_equal]
  | cons first rest =>
      unfold all_equal
      rw [List.all_eq_true]
      constructor
      · intro h x hx y hy
        have hfx : first = x := by
          rcases List.mem_cons.mp hx with h1 | h1
          · exact h1.symm
          · simpa using h x h1
        have hfy : first = y := by
          rcases List.mem_cons.mp hy with h1 | h1
          · exact h1.symm
          · simpa using h y h1
        rw [← hfx, ← hfy]
      · intro h x hx
        simpa using h first (List.mem_cons_self _ _) x (List.mem_cons_of_mem _ hx)

theorem mainPipeline_report (ext : List Nat → List Nat → ℚ)
    (files : List LoadFile) (data : List SenRecord) (attrV annV : Vocabulary)
    (h : load_data files = ((data, attrV, annV), none)) :
    (mainPipeline ext files).1 = print_data data := by
  unfold mainPipeline
  rw [h]
  dsimp only
  cases hm : measure_agreement ext annV.words.enum attrV.words.length
      (remove_empty data) with
  | error e => rfl
  | ok v =>
      cases hav : add_votes (remove_empty data) annV with
      | mk p e =>
          obtain ⟨data3, annV3⟩ := p
          cases e with
          | none =>
              dsimp only
              cases heval : eval_against_gold data3 annV3 with
              | error e2 => rfl
              | ok s => rfl
          | some err => rfl

/-- Counterexample to C9 as stated: `main` writes the TSV before
`add_votes` runs, so on a run where gold and two real annotators all pick
the same attribute the written `full_agreement` value is `true`, although
after vote synthesis the annotators' sets are not pairwise identical
(`min3` is empty). -/
theorem report_written_before_votes :
    mainPipeline extZero agreeFiles = ([("s1", true)], none) ∧
    ((add_votes (remove_empty (load_data agreeFiles).1.1)
        (load_data agreeFiles).1.2.2).1.1.map
      (fun s => all_equal (s.annot.map Prod.snd))) = [false] :=
  ⟨by rfl, by decide⟩

/-- C9 amended: the `full_agreement` value written to the TSV report is
computed from the sentence map as it stands before vote synthesis — the
report row for each sentence is its id paired with
`all_equal(annot.values())` over the annotators loaded from the files
only — and that flag is true exactly when those annotators' attribute
lists are pairwise identical.  The synthetic vote annotators, added to
`annot` only after the report is written, do not participate. -/
theorem report_full_agreement (ext : List Nat → List Nat → ℚ)
    (files : List LoadFile) (data : List SenRecord) (attrV annV : Vocabulary)
    (h : load_data files = ((data, attrV, annV), none)) :
    (mainPipeline ext files).1
      = data.map (fun sen => (sen.id, all_equal (sen.annot.map Prod.snd))) ∧
    ∀ sen ∈ data,
      (all_equal (sen.annot.map Prod.snd) = true ↔
        ∀ l1 ∈ sen.annot.map Prod.snd, ∀ l2 ∈ sen.annot.map Prod.snd,
          l1 = l2) := by
  refine ⟨?_, fun sen _ => all_equal_iff _⟩
  rw [mainPipeline_report ext files data attrV annV h]
  rfl

/-- Witness for the amended C9 on the concrete three-file input. -/
theorem report_full_agreement_witness :
    (mainPipeline extZero agreeFiles).1
      = (load_data agreeFiles).1.1.map
          (fun sen => (sen.id, all_equal (sen.annot.map Prod.snd))) ∧
    ∀ sen ∈ (load_data agreeFiles).1.1,
      (all_equal (sen.annot.map Prod.snd) = true ↔
        ∀ l1 ∈ sen.annot.map Prod.snd, ∀ l2 ∈ sen.annot.map Prod.snd,
          l1 = l2) :=
  report_full_agreement extZero agreeFiles (load_data agreeFiles).1.1
    (load_data agreeFiles).1.2.1 (load_data agreeFiles).1.2.2 (by decide)
